import Mathlib

/-! monoverLogVerifier: the log parser, the transaction builder and the history emitter.

A shallow embedding of `src/main.cpp`.

* C++ `int` and `long long int` values are modelled as `Int`.  The addition of
  line 181, `sessionToTxMap[sesId] += sesId`, acts on session ids read from the
  input and is reduced to the 64 bits of a `long long int` (`wrapLongLong`); the
  `int` counters (clock, versions, indices) would need more than 2^31 records to
  overflow and are not reduced.
* `std::map<K, V>` with an integer key is modelled as an association list kept in
  strictly ascending key order (`mapSet` is the ordered insert), so that iterating
  the list is iterating the map.
* `operator[]` value-initialises a missing entry: `0` for integers, `{0, 0}` for a
  pair, the empty vector for a vector.  `mapGet` carries that default explicitly.
* The input file is modelled by the list of its lines, the output file by the
  string written to it (both files are assumed to open).
-/

namespace LogVerifier

/-! ## Data model -/

/-- The record `struct Operation` (main.cpp, lines 10-14). -/
structure Operation where
  sesId : Int
  opType : String
  objectId : Int
deriving DecidableEq

/-- The two subclasses of `ElleOp` (main.cpp, lines 16-101).  `isInvoke` is the
private flag of `ReadOp`, `false` on construction. -/
inductive ElleOp where
  | ReadOp (objVersion : Int) (objId : Int) (transactionId : Int) (isInvoke : Bool)
  | WriteOp (objVersion : Int) (objId : Int) (transactionId : Int)
deriving DecidableEq

namespace ElleOp

/-- The method `setToInvoke`: sets the flag of a `ReadOp`, does nothing on a `WriteOp`. -/
def setToInvoke : ElleOp → ElleOp
  | ReadOp objVersion objId transactionId _ => ReadOp objVersion objId transactionId true
  | WriteOp objVersion objId transactionId => WriteOp objVersion objId transactionId

/-- The method `setToOk`: clears the flag of a `ReadOp`, does nothing on a `WriteOp`. -/
def setToOk : ElleOp → ElleOp
  | ReadOp objVersion objId transactionId _ => ReadOp objVersion objId transactionId false
  | WriteOp objVersion objId transactionId => WriteOp objVersion objId transactionId

/-- The method `toString` of `ReadOp` (lines 38-57) and of `WriteOp` (lines 81-87).
The loop `for (int i = 0; i < objVersion; i++) ss << i << " "` runs `objVersion`
times when `objVersion` is positive and not at all otherwise. -/
def toString : ElleOp → String
  | ReadOp objVersion objId _ isInvoke =>
    let ss := "[:r " ++ ToString.toString objId
    if objVersion = -1 ∨ isInvoke = true then
      ss ++ " nil]"
    else
      ss ++ " ["
        ++ String.join ((List.range objVersion.toNat).map
            (fun (i : Nat) => ToString.toString (Int.ofNat i) ++ " "))
        ++ ToString.toString objVersion ++ "]]"
  | WriteOp objVersion objId _ =>
    "[:append " ++ ToString.toString objId ++ " " ++ ToString.toString objVersion ++ "]"

/-- The field `objId` of the base class. -/
def objId : ElleOp → Int
  | ReadOp _ objId _ _ => objId
  | WriteOp _ objId _ => objId

/-- The field `objVersion` of either subclass. -/
def objVersion : ElleOp → Int
  | ReadOp objVersion _ _ _ => objVersion
  | WriteOp objVersion _ _ => objVersion

/-- The public field `transactionId` of the base class. -/
def transactionId : ElleOp → Int
  | ReadOp _ _ transactionId _ => transactionId
  | WriteOp _ _ transactionId => transactionId

/-- Whether the object is a `ReadOp` (and not a `WriteOp`). -/
def isRead : ElleOp → Bool
  | ReadOp _ _ _ _ => true
  | WriteOp _ _ _ => false

end ElleOp

/-! ## Ordered maps -/

/-- A `std::map` with integer keys: its entries in ascending key order. -/
abbrev Map (α : Type) := List (Int × α)

/-- The lookup `m.find(k)`: the value stored under `k`, if any. -/
def mapFind {α : Type} : Map α → Int → Option α
  | [], _ => none
  | (k', v) :: rest, k => if k' = k then some v else mapFind rest k

/-- The test `m.contains(k)`. -/
def mapContains {α : Type} (m : Map α) (k : Int) : Bool :=
  (mapFind m k).isSome

/-- The value read through `m[k]`: the stored value, or the value-initialised
default `d` that `operator[]` inserts for a missing key. -/
def mapGet {α : Type} (m : Map α) (k : Int) (d : α) : α :=
  (mapFind m k).getD d

/-- The assignment `m[k] = v`: overwrite the entry of `k`, or insert it at its
place in the key order. -/
def mapSet {α : Type} : Map α → Int → α → Map α
  | [], k, v => [(k, v)]
  | (k', v') :: rest, k, v =>
    if k < k' then (k, v) :: (k', v') :: rest
    else if k = k' then (k, v) :: rest
    else (k', v') :: mapSet rest k v

/-! ## The transaction builder (the loop of `main`, lines 160-205) -/

/-- The local variables of `main` that the loop updates. -/
structure State where
  sessionToTxMap : Map Int
  objVersionMap : Map Int
  transactions : Map (List ElleOp)
  transactionTime : Map (Int × Int)
  currTime : Int
deriving DecidableEq

/-- The state before the loop (lines 160-164): four empty maps, `currTime = 0`. -/
def State.init : State :=
  { sessionToTxMap := [], objVersionMap := [], transactions := [],
    transactionTime := [], currTime := 0 }

/-- Lines 167-170: enter the session into `sessionToTxMap` when it is missing. -/
def ensureSession (sessionToTxMap : Map Int) (sesId : Int) : Map Int :=
  if !mapContains sessionToTxMap sesId then mapSet sessionToTxMap sesId sesId
  else sessionToTxMap

/-- Line 172: the transaction id `tx` an operation of session `sesId` resolves to
in state `st`. -/
def resolveTx (st : State) (sesId : Int) : Int :=
  mapGet (ensureSession st.sessionToTxMap sesId) sesId 0

/-- Lines 186-190 and 197-201: initialise the version of an object to `-1`. -/
def ensureObject (objVersionMap : Map Int) (objectId : Int) : Map Int :=
  if !mapContains objVersionMap objectId then mapSet objVersionMap objectId (-1)
  else objVersionMap

/-- The value of a `long long int` after an addition whose exact result is `x`: `x`
reduced to the 64-bit two's complement range. -/
def wrapLongLong (x : Int) : Int :=
  (x + 9223372036854775808) % 18446744073709551616 - 9223372036854775808

/-- One iteration of the loop of `main` (lines 166-205). -/
def step (st : State) (operation : Operation) : State :=
  let sessionToTxMap := ensureSession st.sessionToTxMap operation.sesId
  let tx := mapGet sessionToTxMap operation.sesId 0
  if operation.opType = "BEGIN" then
    { st with
      sessionToTxMap := sessionToTxMap
      transactionTime := mapSet st.transactionTime tx (st.currTime, -1)
      currTime := st.currTime + 1 }
  else if operation.opType = "COMMIT" then
    { st with
      sessionToTxMap :=
        mapSet sessionToTxMap operation.sesId
          (wrapLongLong (mapGet sessionToTxMap operation.sesId 0 + operation.sesId))
      transactionTime :=
        mapSet st.transactionTime tx ((mapGet st.transactionTime tx (0, 0)).1, st.currTime)
      currTime := st.currTime + 1 }
  else if operation.opType = "WRITE" then
    let objVersionMap := ensureObject st.objVersionMap operation.objectId
    let objVersionMap :=
      mapSet objVersionMap operation.objectId (mapGet objVersionMap operation.objectId 0 + 1)
    { st with
      sessionToTxMap := sessionToTxMap
      objVersionMap := objVersionMap
      transactions :=
        mapSet st.transactions tx
          (mapGet st.transactions tx []
            ++ [ElleOp.WriteOp (mapGet objVersionMap operation.objectId 0)
                  operation.objectId tx])
      transactionTime :=
        mapSet st.transactionTime tx ((mapGet st.transactionTime tx (0, 0)).1, st.currTime) }
  else if operation.opType = "READ" then
    let objVersionMap := ensureObject st.objVersionMap operation.objectId
    { st with
      sessionToTxMap := sessionToTxMap
      objVersionMap := objVersionMap
      transactions :=
        mapSet st.transactions tx
          (mapGet st.transactions tx []
            ++ [ElleOp.ReadOp (mapGet objVersionMap operation.objectId 0)
                  operation.objectId tx false])
      transactionTime :=
        mapSet st.transactionTime tx ((mapGet st.transactionTime tx (0, 0)).1, st.currTime) }
  else
    { st with sessionToTxMap := sessionToTxMap }

/-- The loop of `main` run from state `st` over the operations in order. -/
def run (st : State) (operations : List Operation) : State :=
  operations.foldl step st

/-- The loop of `main` from the initial state. -/
def build (operations : List Operation) : State :=
  run State.init operations

/-! ## The history emitter (`writeToFile`, lines 213-266) -/

/-- One entry of `elleOut`: the data a line is printed from.  `isInvoke` tells the
`:invoke` line from the `:ok` line, `value` lists the renderings of the ops. -/
structure Event where
  index : Int
  isInvoke : Bool
  value : List String
  process : Int
  time : Int
deriving DecidableEq

/-- The text streamed into `ss` for one event (lines 229-240 and 247-257): every
rendered op is followed by one space, and `std::endl` ends the line. -/
def Event.line (e : Event) : String :=
  "\x7b:index " ++ toString e.index
    ++ (if e.isInvoke then " :type :invoke, :value [" else " :type :ok, :value [")
    ++ String.join (e.value.map (fun s => s ++ " "))
    ++ "], " ++ ":process " ++ toString e.process ++ ", "
    ++ ":time " ++ toString e.time ++ "\x7d" ++ "\n"

/-- The invoke event of a transaction (lines 229-242), built with index `index`. -/
def invokeEvent (timing : Map (Int × Int)) (index : Int) (tx : Int × List ElleOp) : Event :=
  { index := index, isInvoke := true,
    value := tx.2.map (fun op => op.setToInvoke.toString),
    process := tx.1, time := (mapGet timing tx.1 (0, 0)).1 }

/-- The ok event of a transaction (lines 247-259), built with index `index`.  The
ops are objects behind pointers: when the ok pass starts, the invoke pass of lines
231-235 has called `setToInvoke` on every one of them, and the ok pass calls
`setToOk` on these flagged objects before it renders them. -/
def okEvent (timing : Map (Int × Int)) (index : Int) (tx : Int × List ElleOp) : Event :=
  { index := index, isInvoke := false,
    value := (tx.2.map ElleOp.setToInvoke).map (fun op => op.setToOk.toString),
    process := tx.1, time := (mapGet timing tx.1 (0, 0)).2 }

/-- The loop over `transactions` (lines 226-260), from the current `index` and
`elleOut`; `elleOut` is keyed by the time of the event.  For every entry the invoke
pass flags and renders the ops, then the ok pass clears and renders the flagged
ops (`okEvent` goes through both mutations). -/
def emitLoop (timing : Map (Int × Int)) :
    List (Int × List ElleOp) → Int → Map Event → Map Event
  | [], _, elleOut => elleOut
  | tx :: rest, index, elleOut =>
    let inv := invokeEvent timing index tx
    let elleOut := mapSet elleOut inv.time inv
    let ok := okEvent timing (index + 1) tx
    let elleOut := mapSet elleOut ok.time ok
    emitLoop timing rest (index + 2) elleOut

/-- The map `elleOut` when the loop of `writeToFile` is over. -/
def elleOut (transactions : Map (List ElleOp)) (timing : Map (Int × Int)) : Map Event :=
  emitLoop timing transactions 0 []

/-- The events whose lines are written, top to bottom (lines 262-265). -/
def writtenEvents (transactions : Map (List ElleOp)) (timing : Map (Int × Int)) :
    List Event :=
  (elleOut transactions timing).map Prod.snd

/-- The content written to the output file by `writeToFile`. -/
def writeToFile (transactions : Map (List ElleOp)) (timing : Map (Int × Int)) : String :=
  String.join ((writtenEvents transactions timing).map Event.line)

/-- The output of `main` on a list of parsed operations (lines 166-207). -/
def mainOutput (operations : List Operation) : String :=
  writeToFile (build operations).transactions (build operations).transactionTime

/-- The events generated by the loop of `writeToFile`, in the order they are
stored into `elleOut`, the first of them with index `index`. -/
def genEvents (timing : Map (Int × Int)) : List (Int × List ElleOp) → Int → List Event
  | [], _ => []
  | tx :: rest, index =>
    invokeEvent timing index tx :: okEvent timing (index + 1) tx
      :: genEvents timing rest (index + 2)

/-! ## Specification-side vocabulary -/

/-- The record is a WRITE on object `o`. -/
def isWriteOn (o : Int) (r : Operation) : Bool :=
  decide (r.opType = "WRITE" ∧ r.objectId = o)

/-- The number of WRITE records on object `o` in a list of records. -/
def countWrites (o : Int) (operations : List Operation) : Nat :=
  operations.countP (isWriteOn o)

/-- The record is a BEGIN or a COMMIT. -/
def isBeginOrCommit (r : Operation) : Bool :=
  decide (r.opType = "BEGIN" ∨ r.opType = "COMMIT")

/-- The record is a READ or a WRITE. -/
def isReadOrWrite (r : Operation) : Bool :=
  decide (r.opType = "READ" ∨ r.opType = "WRITE")

/-- The version of object `o` in state `st`, `-1` when it has none yet. -/
def versionOf (st : State) (o : Int) : Int :=
  mapGet st.objVersionMap o (-1)

/-- The versions of the ops pushed for the WRITE records on `o`, in input order:
after the iteration for such a record, the last element of the vector
`transactions[tx]` is the op it pushed. -/
def writeVersions (o : Int) : State → List Operation → List Int
  | _, [] => []
  | st, r :: rest =>
    (if isWriteOn o r then
      ((mapGet (step st r).transactions (resolveTx st r.sesId) []).getLast?.map
        ElleOp.objVersion).toList
     else []) ++ writeVersions o (step st r) rest

/-- The READ and WRITE records that resolve to transaction id `T` when the loop
runs from `st`, in input order. -/
def recordsOf (T : Int) : State → List Operation → List Operation
  | _, [] => []
  | st, r :: rest =>
    (if isReadOrWrite r ∧ resolveTx st r.sesId = T then [r] else [])
      ++ recordsOf T (step st r) rest

/-- The ops pushed by the iteration for record `r` in state `st`: none for BEGIN
and COMMIT, one `WriteOp` carrying the incremented version for WRITE, one `ReadOp`
carrying the current version for READ. -/
def newOps (st : State) (r : Operation) : List ElleOp :=
  if r.opType = "WRITE" then
    [ElleOp.WriteOp (versionOf st r.objectId + 1) r.objectId (resolveTx st r.sesId)]
  else if r.opType = "READ" then
    [ElleOp.ReadOp (versionOf st r.objectId) r.objectId (resolveTx st r.sesId) false]
  else []

/-- The ops pushed into `transactions[T]` while the loop runs from `st`. -/
def opsFor (T : Int) : State → List Operation → List ElleOp
  | _, [] => []
  | st, r :: rest =>
    (if resolveTx st r.sesId = T then newOps st r else []) ++ opsFor T (step st r) rest

/-- The clock values stored for the BEGIN and COMMIT records, in input order:
after the iteration for a BEGIN the first component of `transactionTime[tx]`,
after the iteration for a COMMIT its second component. -/
def assignedClocks : State → List Operation → List Int
  | _, [] => []
  | st, r :: rest =>
    (if r.opType = "BEGIN" then
      [(mapGet (step st r).transactionTime (resolveTx st r.sesId) (0, 0)).1]
     else if r.opType = "COMMIT" then
      [(mapGet (step st r).transactionTime (resolveTx st r.sesId) (0, 0)).2]
     else []) ++ assignedClocks (step st r) rest

/-- The stores `elleOut[e.time] = e` for the events of a list, in order. -/
def storeAll (elleOut : Map Event) (events : List Event) : Map Event :=
  events.foldl (fun m e => mapSet m e.time e) elleOut

/-- The keys of a map are in strictly ascending order. -/
def keysAscending {α : Type} (m : Map α) : Prop :=
  (m.map Prod.fst).Pairwise (· < ·)

/-- The scenario of the specification: session `S1` does BEGIN, WRITE on object 7,
COMMIT; then session `S2` does BEGIN, READ on object 7, COMMIT. -/
def scenario (S1 S2 : Int) : List Operation :=
  [⟨S1, "BEGIN", -1⟩, ⟨S1, "WRITE", 7⟩, ⟨S1, "COMMIT", -1⟩,
   ⟨S2, "BEGIN", -1⟩, ⟨S2, "READ", 7⟩, ⟨S2, "COMMIT", -1⟩]

/-- The event line as the specification words it,
`{:index i :type :invoke, :value [<ops>] , :process p, :time t}` (and `:ok`): the
renderings of the ops, the closing bracket right after the last of them, then
space, comma, space. -/
def specEventLine (index : Int) (isInvoke : Bool) (value : List String)
    (process time : Int) : String :=
  "\x7b:index " ++ toString index
    ++ (if isInvoke then " :type :invoke, :value [" else " :type :ok, :value [")
    ++ " ".intercalate value
    ++ "] , :process " ++ toString process ++ ", :time " ++ toString time ++ "\x7d"


/-! ## The log parser (`parseOpLog`, lines 103-146)

A line is the list of its characters.  The sentinel and the white space are ASCII,
so searching and splitting the characters is searching and splitting the bytes.
The extractions `iss >> str` and `iss >> n` are those of the C++ standard library
with the classic locale: both skip leading white space and do nothing on a stream
that is not good; `iss >> n` reads an optional sign and decimal digits, stores 0
and fails when there is no digit, and stores the nearest bound of the type and
fails when the value is out of its range. -/

/-- The text `$_$_$` searched by `find` and `rfind` (lines 118-119). -/
def sentinel : List Char := ['$', '_', '$', '_', '$']

/-- Whether `pat` stands at the beginning of `s`. -/
def startsWith (pat : List Char) : List Char → Bool
  | s => pat == s.take pat.length

/-- The call `line.find(pat)`: the first position at which `pat` occurs, `none`
for `npos`. -/
def strFind (pat : List Char) : List Char → Option Nat
  | [] => if startsWith pat [] then some 0 else none
  | c :: cs =>
    if startsWith pat (c :: cs) then some 0 else (strFind pat cs).map (fun i => i + 1)

/-- The call `line.rfind(pat)`: the last position at which `pat` occurs, `none`
for `npos`. -/
def strRfind (pat : List Char) : List Char → Option Nat
  | [] => if startsWith pat [] then some 0 else none
  | c :: cs =>
    match strRfind pat cs with
    | some i => some (i + 1)
    | none => if startsWith pat (c :: cs) then some 0 else none

/-- The call `line.substr(pos, len)`, for `pos` within the line. -/
def substr (line : List Char) (pos len : Nat) : List Char :=
  (line.drop pos).take len

/-- The test `isspace` of the classic locale: space, and the control characters
from tab (9) to carriage return (13). -/
def isSpace (c : Char) : Bool :=
  decide (c.toNat = 32 ∨ (9 ≤ c.toNat ∧ c.toNat ≤ 13))

/-- The test for a decimal digit, `0` (48) to `9` (57). -/
def isDigit (c : Char) : Bool :=
  decide (48 ≤ c.toNat ∧ c.toNat ≤ 57)

/-- The state of a `std::istringstream`: the characters not read yet, and whether
the stream is no longer good. -/
structure IStringStream where
  buf : List Char
  failed : Bool
deriving DecidableEq

/-- The extraction `iss >> str` into a string holding `str`: skip white space, then
read up to the next white space.  On a stream that is not good, or with nothing but
white space left, the stream fails and the string keeps its value. -/
def extractString (iss : IStringStream) (str : String) : IStringStream × String :=
  if iss.failed then (iss, str)
  else
    let r := iss.buf.dropWhile isSpace
    if r = [] then ({ buf := [], failed := true }, str)
    else
      ({ buf := r.dropWhile (fun c => !isSpace c), failed := false },
        String.mk (r.takeWhile (fun c => !isSpace c)))

/-- The number written by a list of decimal digits. -/
def digitsValue (ds : List Char) : Nat :=
  ds.foldl (fun acc c => 10 * acc + (c.toNat - 48)) 0

/-- The extraction `iss >> n` into an integer variable of range `lo .. hi` holding
`v`: skip white space, read an optional sign and the decimal digits that follow.
On a stream that is not good, or with nothing but white space left, the stream
fails and the variable keeps its value; with no digit the variable gets 0 and the
stream fails; with a value out of range it gets the nearest bound and the stream
fails. -/
def extractInt (lo hi : Int) (iss : IStringStream) (v : Int) : IStringStream × Int :=
  if iss.failed then (iss, v)
  else
    let r := iss.buf.dropWhile isSpace
    if r = [] then ({ buf := [], failed := true }, v)
    else
      let negative := decide (r.head? = some '-')
      let r1 := if r.head? = some '-' ∨ r.head? = some '+' then r.tail else r
      let ds := r1.takeWhile isDigit
      let rest := r1.dropWhile isDigit
      if ds = [] then ({ buf := rest, failed := true }, 0)
      else
        let n : Int := if negative then -(digitsValue ds : Int) else (digitsValue ds : Int)
        if n < lo then ({ buf := rest, failed := true }, lo)
        else if hi < n then ({ buf := rest, failed := true }, hi)
        else ({ buf := rest, failed := false }, n)

/-- The least value of `long long int`. -/
def llongMin : Int := -9223372036854775808

/-- The greatest value of `long long int`. -/
def llongMax : Int := 9223372036854775807

/-- The least value of `int`. -/
def intMin : Int := -2147483648

/-- The greatest value of `int`. -/
def intMax : Int := 2147483647

/-- The keys of the table `operations` (lines 109-114). -/
def keywords : List String := ["BEGIN", "WRITE", "READ", "COMMIT"]

/-- The content cut out of a line (lines 118-123) when the sentinel is found at two
different positions.  Two occurrences lie at least two characters apart; were the
unsigned length `end - start - 2` to wrap, `substr` would take the rest of the line. -/
def lineContent (line : List Char) : Option (List Char) :=
  match strFind sentinel line, strRfind sentinel line with
  | some start, some last =>
    if start = last then none
    else
      some (substr line (start + 2)
        (if start + 2 ≤ last then last - start - 2 else line.length))
  | _, _ => none

/-- The body of the loop of `parseOpLog` for one line (lines 117-142): the record
pushed for the line, if any. -/
def parseLine (line : String) : Option Operation :=
  match lineContent line.toList with
  | none => none
  | some content =>
    let iss : IStringStream := { buf := content, failed := false }
    let (iss, temp) := extractString iss ""
    let (iss, opType) := extractString iss ""
    if opType ∈ keywords then
      if opType = "BEGIN" ∨ opType = "COMMIT" then
        let (iss, _) := extractString iss temp
        let (_, sesId) := extractInt llongMin llongMax iss (-1)
        some { sesId := sesId, opType := opType, objectId := -1 }
      else if opType = "WRITE" ∨ opType = "READ" then
        let (iss, temp) := extractString iss temp
        let (iss, sesId) := extractInt llongMin llongMax iss (-1)
        let (iss, _) := extractString iss temp
        let (_, objectId) := extractInt intMin intMax iss (-1)
        some { sesId := sesId, opType := opType, objectId := objectId }
      else
        some { sesId := -1, opType := opType, objectId := -1 }
    else none

/-- The function `parseOpLog` on the lines of the input file, in order: every line
that yields a record pushes it at the back of the vector. -/
def parseOpLog (lines : List String) : List Operation :=
  lines.foldl
    (fun transactions line =>
      match parseLine line with
      | some transaction => transactions ++ [transaction]
      | none => transactions)
    []

/-- The function `main` (lines 151-210) on `argc` arguments and the lines of the
input file: the exit status, and the text written to the output file when the run
reaches `writeToFile`. -/
def main (argc : Nat) (lines : List String) : Int × Option String :=
  if argc < 3 then (1, none)
  else (0, some (mainOutput (parseOpLog lines)))

/-- The white-space separated tokens of a text, `cur` being the token under way. -/
def tokensGo : List Char → List Char → List (List Char)
  | [], cur => if cur = [] then [] else [cur]
  | c :: cs, cur =>
    if isSpace c then
      (if cur = [] then tokensGo cs [] else cur :: tokensGo cs [])
    else tokensGo cs (cur ++ [c])

/-- The white-space separated tokens of a text, in order. -/
def tokens (s : List Char) : List (List Char) :=
  tokensGo s []

/-- A token is a decimal integer: an optional sign, then one digit or more. -/
def isDecimal (t : List Char) : Bool :=
  let ds := if t.head? = some '-' ∨ t.head? = some '+' then t.tail else t
  decide (ds ≠ []) && ds.all isDigit

/-- The integer a decimal token writes. -/
def decimalValue (t : List Char) : Int :=
  let ds := if t.head? = some '-' ∨ t.head? = some '+' then t.tail else t
  if t.head? = some '-' then -(digitsValue ds : Int) else (digitsValue ds : Int)

/-- The sentinel occurs in the line at position `i`. -/
def occursAt (line : List Char) (i : Nat) : Prop :=
  i ≤ line.length ∧ startsWith sentinel (line.drop i) = true


/-- The number of COMMIT records of session `s` in a list of records. -/
def countCommits (s : Int) (operations : List Operation) : Nat :=
  operations.countP (fun r => decide (r.opType = "COMMIT" ∧ r.sesId = s))

/-- The record has one of the four operation types the loop of `main` acts on. -/
def isKnown (r : Operation) : Bool :=
  decide (r.opType = "BEGIN" ∨ r.opType = "COMMIT" ∨ r.opType = "WRITE" ∨ r.opType = "READ")

/-- The records satisfying `p` that resolve to transaction id `T` when the loop
runs from `st`, in input order. -/
def resolvedTo (T : Int) (p : Operation → Bool) : State → List Operation → List Operation
  | _, [] => []
  | st, r :: rest =>
    (if p r = true ∧ resolveTx st r.sesId = T then [r] else [])
      ++ resolvedTo T p (step st r) rest

/-- The invariant of a begun transaction `T`: its begin time is a clock value
already used, and its commit time is the sentinel `-1` or a later clock value. -/
def beginBeforeCommit (st : State) (T : Int) : Prop :=
  (mapGet st.transactionTime T (0, 0)).1 < st.currTime
    ∧ ((mapGet st.transactionTime T (0, 0)).2 = -1
        ∨ (mapGet st.transactionTime T (0, 0)).1 < (mapGet st.transactionTime T (0, 0)).2)


/-- An operation list with a collision: session 3 begins and reads without COMMIT,
session 2 then begins, reads and commits, session 4 then begins, writes and commits.
The ok event of transaction 3 and the invoke event of transaction 2 carry the same
time; the events of transaction 4 share their times with no other event. -/
def collisionLog : List Operation :=
  [⟨3, "BEGIN", -1⟩, ⟨3, "READ", 7⟩, ⟨2, "BEGIN", -1⟩, ⟨2, "READ", 7⟩,
   ⟨2, "COMMIT", -1⟩, ⟨4, "BEGIN", -1⟩, ⟨4, "WRITE", 7⟩, ⟨4, "COMMIT", -1⟩]

/-! ## Lemmas on ordered maps -/

theorem mapFind_mapSet {α : Type} (m : Map α) (k k' : Int) (v : α) :
    mapFind (mapSet m k v) k' = if k' = k then some v else mapFind m k' := by
  induction m with
  | nil =>
    by_cases h : k' = k
    · simp [mapSet, mapFind, h]
    · simp [mapSet, mapFind, h, Ne.symm h]
  | cons hd tl ih =>
    obtain ⟨k0, v0⟩ := hd
    by_cases h : k' = k
    · subst h
      by_cases h1 : k' < k0
      · simp [mapSet, mapFind, h1]
      · by_cases h2 : k' = k0
        · simp [mapSet, mapFind, h2]
        · simp [mapSet, mapFind, h1, h2, Ne.symm h2, ih]
    · by_cases h1 : k < k0
      · simp [mapSet, mapFind, h1, h, Ne.symm h]
      · by_cases h2 : k = k0
        · subst h2
          simp [mapSet, mapFind, h, Ne.symm h]
        · simp [mapSet, mapFind, h1, h2, ih, h]

theorem mapGet_mapSet {α : Type} (m : Map α) (k k' : Int) (v d : α) :
    mapGet (mapSet m k v) k' d = if k' = k then v else mapGet m k' d := by
  unfold mapGet
  rw [mapFind_mapSet]
  split_ifs <;> rfl

theorem mapGet_mapSet_self {α : Type} (m : Map α) (k : Int) (v d : α) :
    mapGet (mapSet m k v) k d = v := by
  simp [mapGet_mapSet]

theorem mapGet_mapSet_ne {α : Type} (m : Map α) (k k' : Int) (v d : α) (h : k' ≠ k) :
    mapGet (mapSet m k v) k' d = mapGet m k' d := by
  simp [mapGet_mapSet, h]

theorem mapFind_ensureSession (m : Map Int) (s s' : Int) :
    mapFind (ensureSession m s) s'
      = if s' = s then some ((mapFind m s).getD s) else mapFind m s' := by
  unfold ensureSession mapContains
  cases hm : mapFind m s with
  | none =>
    simp only [Option.isSome_none, Bool.not_false, if_true, mapFind_mapSet, Option.getD_none]
  | some v =>
    by_cases h : s' = s
    · subst h; simp [hm]
    · simp [h]

theorem mapGet_ensureSession (m : Map Int) (s d : Int) :
    mapGet (ensureSession m s) s d = (mapFind m s).getD s := by
  simp [mapGet, mapFind_ensureSession]

theorem resolveTx_eq (st : State) (s : Int) :
    resolveTx st s = (mapFind st.sessionToTxMap s).getD s := by
  simp [resolveTx, mapGet_ensureSession]

theorem mapGet_ensureObject (m : Map Int) (o o' d : Int) :
    mapGet (ensureObject m o) o' d
      = if o' = o then mapGet m o (-1) else mapGet m o' d := by
  unfold ensureObject mapContains mapGet
  cases hm : mapFind m o with
  | none =>
    simp only [Option.isSome_none, Bool.not_false, if_true, mapFind_mapSet, Option.getD_none]
    split_ifs <;> rfl
  | some v =>
    by_cases h : o' = o
    · subst h; simp [hm]
    · simp [h]

/-! ## Lemmas on one iteration of the builder loop -/

theorem step_currTime (st : State) (r : Operation) :
    (step st r).currTime = if isBeginOrCommit r then st.currTime + 1 else st.currTime := by
  unfold step isBeginOrCommit
  by_cases h1 : r.opType = "BEGIN"
  · simp [h1]
  · by_cases h2 : r.opType = "COMMIT"
    · simp [h2]
    · by_cases h3 : r.opType = "WRITE"
      · simp [h3]
      · by_cases h4 : r.opType = "READ"
        · simp [h4]
        · simp [h1, h2, h3, h4]

theorem versionOf_step (st : State) (r : Operation) (o : Int) :
    versionOf (step st r) o = if isWriteOn o r then versionOf st o + 1 else versionOf st o := by
  unfold step isWriteOn versionOf
  by_cases h1 : r.opType = "BEGIN"
  · simp [h1]
  · by_cases h2 : r.opType = "COMMIT"
    · simp [h2]
    · by_cases h3 : r.opType = "WRITE"
      · by_cases ho : r.objectId = o
        · subst ho
          simp [h3, mapGet_mapSet, mapGet_ensureObject]
        · simp [h3, ho, Ne.symm ho, mapGet_mapSet, mapGet_ensureObject]
      · by_cases h4 : r.opType = "READ"
        · by_cases ho : r.objectId = o
          · subst ho
            simp [h3, h4, mapGet_ensureObject]
          · simp [h3, h4, ho, Ne.symm ho, mapGet_ensureObject]
        · simp [h1, h2, h3, h4]

theorem step_transactions (st : State) (r : Operation) (T : Int) :
    mapGet (step st r).transactions T []
      = mapGet st.transactions T []
          ++ (if resolveTx st r.sesId = T then newOps st r else []) := by
  unfold step newOps resolveTx versionOf
  by_cases h1 : r.opType = "BEGIN"
  · simp [h1]
  · by_cases h2 : r.opType = "COMMIT"
    · simp [h2]
    · by_cases h3 : r.opType = "WRITE"
      · by_cases hT : mapGet (ensureSession st.sessionToTxMap r.sesId) r.sesId 0 = T
        · subst hT
          simp [h3, mapGet_mapSet, mapGet_ensureObject]
        · simp [h3, hT, Ne.symm hT, mapGet_mapSet]
      · by_cases h4 : r.opType = "READ"
        · by_cases hT : mapGet (ensureSession st.sessionToTxMap r.sesId) r.sesId 0 = T
          · subst hT
            simp [h3, h4, mapGet_mapSet, mapGet_ensureObject]
          · simp [h3, h4, hT, Ne.symm hT, mapGet_mapSet]
        · simp [h1, h2, h3, h4]

/-! ## Lemmas on the whole loop -/

theorem run_nil (st : State) : run st [] = st := rfl

theorem run_cons (st : State) (r : Operation) (rest : List Operation) :
    run st (r :: rest) = run (step st r) rest := rfl

theorem run_append (st : State) (xs ys : List Operation) :
    run st (xs ++ ys) = run (run st xs) ys := by
  simp [run, List.foldl_append]

theorem run_currTime (st : State) (operations : List Operation) :
    (run st operations).currTime
      = st.currTime + (operations.countP isBeginOrCommit : Nat) := by
  induction operations generalizing st with
  | nil => simp [run_nil]
  | cons r rest ih =>
    rw [run_cons, ih, step_currTime, List.countP_cons]
    by_cases h : isBeginOrCommit r = true
    · simp [h]; ring
    · simp [h]

theorem versionOf_run (st : State) (operations : List Operation) (o : Int) :
    versionOf (run st operations) o = versionOf st o + (countWrites o operations : Nat) := by
  induction operations generalizing st with
  | nil => simp [run_nil, countWrites]
  | cons r rest ih =>
    rw [run_cons, ih, versionOf_step]
    unfold countWrites
    rw [List.countP_cons]
    by_cases h : isWriteOn o r = true
    · simp [h]; ring
    · simp [h]

theorem run_transactions (st : State) (operations : List Operation) (T : Int) :
    mapGet (run st operations).transactions T []
      = mapGet st.transactions T [] ++ opsFor T st operations := by
  induction operations generalizing st with
  | nil => simp [run_nil, opsFor]
  | cons r rest ih =>
    rw [run_cons, ih, step_transactions, opsFor, List.append_assoc]

theorem versionOf_init (o : Int) : versionOf State.init o = -1 := rfl

theorem step_transactionTime (st : State) (r : Operation) (T : Int) :
    mapGet (step st r).transactionTime T (0, 0)
      = if resolveTx st r.sesId = T then
          (if r.opType = "BEGIN" then (st.currTime, -1)
           else if r.opType = "COMMIT" ∨ r.opType = "WRITE" ∨ r.opType = "READ" then
             ((mapGet st.transactionTime T (0, 0)).1, st.currTime)
           else mapGet st.transactionTime T (0, 0))
        else mapGet st.transactionTime T (0, 0) := by
  unfold step resolveTx
  by_cases hT : mapGet (ensureSession st.sessionToTxMap r.sesId) r.sesId 0 = T
  · subst hT
    by_cases h1 : r.opType = "BEGIN"
    · simp [h1, mapGet_mapSet]
    · by_cases h2 : r.opType = "COMMIT"
      · simp [h2, mapGet_mapSet]
      · by_cases h3 : r.opType = "WRITE"
        · simp [h3, mapGet_mapSet]
        · by_cases h4 : r.opType = "READ"
          · simp [h4, mapGet_mapSet]
          · simp [h1, h2, h3, h4]
  · by_cases h1 : r.opType = "BEGIN"
    · simp [h1, hT, Ne.symm hT, mapGet_mapSet]
    · by_cases h2 : r.opType = "COMMIT"
      · simp [h2, hT, Ne.symm hT, mapGet_mapSet]
      · by_cases h3 : r.opType = "WRITE"
        · simp [h3, hT, Ne.symm hT, mapGet_mapSet]
        · by_cases h4 : r.opType = "READ"
          · simp [h4, hT, Ne.symm hT, mapGet_mapSet]
          · simp [h1, h2, h3, h4, hT]

/-! ## Lemmas on strings -/

theorem string_join_cons (a : String) (l : List String) :
    String.join (a :: l) = a ++ String.join l := by
  apply String.ext
  simp [String.data_join]

theorem intercalate_go_snoc (acc s x : String) (l : List String) :
    String.intercalate.go acc s (l ++ [x])
      = acc ++ s ++ String.join (l.map (fun a => a ++ s)) ++ x := by
  induction l generalizing acc with
  | nil =>
    apply String.ext
    simp [String.intercalate.go, String.data_join]
  | cons b bs ih =>
    rw [List.cons_append, String.intercalate.go, ih, List.map_cons]
    apply String.ext
    simp [String.data_join]

theorem intercalate_snoc (s x : String) (l : List String) :
    s.intercalate (l ++ [x]) = String.join (l.map (fun a => a ++ s)) ++ x := by
  cases l with
  | nil =>
    apply String.ext
    simp [String.intercalate, String.intercalate.go, String.data_join]
  | cons b bs =>
    rw [List.cons_append, String.intercalate, intercalate_go_snoc, List.map_cons]
    apply String.ext
    simp [String.data_join]

/-- The rendering of a `ReadOp` of version `n ≥ 0` in ok mode lists `0 .. n`
separated by single spaces. -/
theorem readOp_toString_ok (n : Nat) (o T : Int) :
    (ElleOp.ReadOp (n : Int) o T false).toString
      = "[:r " ++ toString o ++ " ["
          ++ " ".intercalate ((List.range (n + 1)).map (fun i : Nat => toString i)) ++ "]]" := by
  have hne : ¬ ((n : Int) = -1) := by omega
  have hmap : (List.range n).map (fun i : Nat => toString (Int.ofNat i) ++ " ")
      = ((List.range n).map (fun i : Nat => toString i)).map (fun a => a ++ " ") := by
    rw [List.map_map]
    rfl
  have hlast : toString (n : Int) = toString n := rfl
  simp only [ElleOp.toString]
  rw [if_neg (by simp [hne]), Int.toNat_ofNat, hmap, hlast, List.range_succ, List.map_append,
    List.map_cons, List.map_nil, intercalate_snoc]
  apply String.ext
  simp [String.data_join]

theorem readOp_toString_nil (v o T : Int) (b : Bool) (h : v = -1 ∨ b = true) :
    (ElleOp.ReadOp v o T b).toString = "[:r " ++ toString o ++ " nil]" := by
  simp [ElleOp.toString, h]

/-- The ok pass undoes the invoke pass: clearing the flag of a flagged op gives the
op with its flag cleared. -/
theorem setToOk_setToInvoke (op : ElleOp) : op.setToInvoke.setToOk = op.setToOk := by
  cases op <;> rfl

/-- The renderings of the ok event: every op with its flag cleared, although the
invoke pass has flagged it before. -/
theorem okEvent_value (timing : Map (Int × Int)) (index : Int) (tx : Int × List ElleOp) :
    (okEvent timing index tx).value = tx.2.map (fun op => op.setToOk.toString) := by
  simp only [okEvent, List.map_map]
  apply List.map_congr_left
  intro op _
  simp only [Function.comp_apply, setToOk_setToInvoke]

/-! ## Lemmas on the ops pushed by the loop -/

theorem newOps_write (st : State) (r : Operation) (h : r.opType = "WRITE") :
    newOps st r
      = [ElleOp.WriteOp (versionOf st r.objectId + 1) r.objectId (resolveTx st r.sesId)] := by
  simp [newOps, h]

theorem newOps_read (st : State) (r : Operation) (h : r.opType = "READ") :
    newOps st r
      = [ElleOp.ReadOp (versionOf st r.objectId) r.objectId (resolveTx st r.sesId) false] := by
  simp [newOps, h]

/-- The vector of the transaction a record resolves to, after the whole loop: what
it held before the record, then the ops the record pushes, then later ops. -/
theorem build_split (pre post : List Operation) (r : Operation) :
    mapGet (build (pre ++ r :: post)).transactions (resolveTx (build pre) r.sesId) []
      = mapGet (build pre).transactions (resolveTx (build pre) r.sesId) []
          ++ (newOps (build pre) r
              ++ opsFor (resolveTx (build pre) r.sesId) (step (build pre) r) post) := by
  unfold build
  rw [run_append, run_cons, run_transactions, step_transactions]
  simp

theorem versionOf_build (operations : List Operation) (o : Int) :
    versionOf (build operations) o = (countWrites o operations : Nat) - 1 := by
  unfold build
  rw [versionOf_run, versionOf_init]
  ring

theorem writeVersions_eq (o : Int) (st : State) (operations : List Operation) :
    writeVersions o st operations
      = (List.range (countWrites o operations)).map
          (fun i : Nat => versionOf st o + 1 + (i : Int)) := by
  induction operations generalizing st with
  | nil => simp [writeVersions, countWrites]
  | cons r rest ih =>
    rw [writeVersions, ih, versionOf_step]
    unfold countWrites
    rw [List.countP_cons]
    by_cases h : isWriteOn o r = true
    · have hw : r.opType = "WRITE" ∧ r.objectId = o := by simpa [isWriteOn] using h
      have hlast : (mapGet (step st r).transactions (resolveTx st r.sesId) []).getLast?
          = some (ElleOp.WriteOp (versionOf st o + 1) o (resolveTx st r.sesId)) := by
        rw [step_transactions, if_pos rfl, newOps_write st r hw.1, hw.2]
        exact List.getLast?_concat _
      rw [hlast]
      simp only [h, if_true]
      rw [List.range_succ_eq_map, List.map_cons, List.map_map]
      simp only [Option.map_some', Option.toList_some, ElleOp.objVersion,
        List.singleton_append, Nat.cast_zero, add_zero, List.cons.injEq, true_and]
      apply List.map_congr_left
      intro i _
      simp only [Function.comp_apply, Nat.cast_succ]
      ring
    · simp [h]

theorem assignedClocks_eq (st : State) (operations : List Operation) :
    assignedClocks st operations
      = (List.range (operations.countP isBeginOrCommit)).map
          (fun i : Nat => st.currTime + (i : Int)) := by
  induction operations generalizing st with
  | nil => simp [assignedClocks]
  | cons r rest ih =>
    rw [assignedClocks, ih, step_currTime, List.countP_cons, step_transactionTime, if_pos rfl]
    by_cases h1 : r.opType = "BEGIN"
    · have hb : isBeginOrCommit r = true := by simp [isBeginOrCommit, h1]
      simp only [h1, hb, if_true]
      rw [List.range_succ_eq_map, List.map_cons, List.map_map]
      simp only [List.singleton_append, Nat.cast_zero, add_zero, List.cons.injEq, true_and]
      apply List.map_congr_left
      intro i _
      simp only [Function.comp_apply, Nat.cast_succ]
      ring
    · by_cases h2 : r.opType = "COMMIT"
      · have hb : isBeginOrCommit r = true := by simp [isBeginOrCommit, h2]
        have hcb : ¬ (("COMMIT" : String) = "BEGIN") := by decide
        simp only [h2, hcb, hb, if_true, if_false, true_or]
        rw [List.range_succ_eq_map, List.map_cons, List.map_map]
        simp only [List.singleton_append, Nat.cast_zero, add_zero, List.cons.injEq, true_and]
        apply List.map_congr_left
        intro i _
        simp only [Function.comp_apply, Nat.cast_succ]
        ring
      · have hb : isBeginOrCommit r = false := by simp [isBeginOrCommit, h1, h2]
        simp [h1, h2, hb]

theorem opsFor_kinds (T : Int) (st : State) (operations : List Operation) :
    (opsFor T st operations).map (fun op => (op.isRead, op.objId))
      = (recordsOf T st operations).map
          (fun r => (decide (r.opType = "READ"), r.objectId)) := by
  induction operations generalizing st with
  | nil => simp [opsFor, recordsOf]
  | cons r rest ih =>
    rw [opsFor, recordsOf, List.map_append, List.map_append, ih]
    congr 1
    by_cases hT : resolveTx st r.sesId = T
    · by_cases h3 : r.opType = "WRITE"
      · simp [hT, newOps, isReadOrWrite, h3, ElleOp.isRead, ElleOp.objId]
      · by_cases h4 : r.opType = "READ"
        · simp [hT, newOps, isReadOrWrite, h4, ElleOp.isRead, ElleOp.objId]
        · simp [hT, newOps, isReadOrWrite, h3, h4]
    · simp [hT]

theorem opsFor_transactionId (T : Int) (st : State) (operations : List Operation) :
    ∀ op ∈ opsFor T st operations, op.transactionId = T := by
  induction operations generalizing st with
  | nil => simp [opsFor]
  | cons r rest ih =>
    intro op hop
    rw [opsFor, List.mem_append] at hop
    rcases hop with hop | hop
    · by_cases hT : resolveTx st r.sesId = T
      · rw [if_pos hT] at hop
        unfold newOps at hop
        split_ifs at hop
        · simp only [List.mem_singleton] at hop
          rw [hop]; exact hT
        · simp only [List.mem_singleton] at hop
          rw [hop]; exact hT
        · simp at hop
      · simp [hT] at hop
    · exact ih _ op hop

theorem step_transactions_of_not_readOrWrite (st : State) (r : Operation)
    (h : isReadOrWrite r = false) : (step st r).transactions = st.transactions := by
  have h' : ¬ r.opType = "READ" ∧ ¬ r.opType = "WRITE" := by
    simpa [isReadOrWrite] using h
  unfold step
  by_cases h1 : r.opType = "BEGIN"
  · simp [h1]
  · by_cases h2 : r.opType = "COMMIT"
    · simp [h2]
    · simp [h1, h2, h'.1, h'.2]

/-! ## Lemmas on the key order of maps -/

theorem mem_mapSet {α : Type} (m : Map α) (k : Int) (v : α) (x : Int × α)
    (hx : x ∈ mapSet m k v) : x = (k, v) ∨ x ∈ m := by
  induction m with
  | nil =>
    simp only [mapSet, List.mem_singleton] at hx
    exact Or.inl hx
  | cons hd tl ih =>
    obtain ⟨k0, v0⟩ := hd
    unfold mapSet at hx
    split_ifs at hx with h1 h2
    · rcases List.mem_cons.mp hx with h | h
      · exact Or.inl h
      · exact Or.inr h
    · rcases List.mem_cons.mp hx with h | h
      · exact Or.inl h
      · exact Or.inr (List.mem_cons_of_mem _ h)
    · rcases List.mem_cons.mp hx with h | h
      · exact Or.inr (h ▸ List.mem_cons_self _ _)
      · rcases ih h with h | h
        · exact Or.inl h
        · exact Or.inr (List.mem_cons_of_mem _ h)

theorem keysAscending_mapSet {α : Type} (m : Map α) (k : Int) (v : α)
    (hm : keysAscending m) : keysAscending (mapSet m k v) := by
  induction m with
  | nil => simp [mapSet, keysAscending]
  | cons hd tl ih =>
    obtain ⟨k0, v0⟩ := hd
    unfold keysAscending at hm ih ⊢
    rw [List.map_cons, List.pairwise_cons] at hm
    unfold mapSet
    split_ifs with h1 h2
    · rw [List.map_cons, List.pairwise_cons]
      refine ⟨?_, ?_⟩
      · intro a ha
        rw [List.map_cons, List.mem_cons] at ha
        rcases ha with ha | ha
        · rw [ha]; exact h1
        · exact lt_trans h1 (hm.1 a ha)
      · rw [List.map_cons, List.pairwise_cons]
        exact hm
    · rw [List.map_cons, List.pairwise_cons]
      subst h2
      exact hm
    · rw [List.map_cons, List.pairwise_cons]
      refine ⟨?_, ih hm.2⟩
      intro a ha
      obtain ⟨x, hx, rfl⟩ := List.mem_map.mp ha
      rcases mem_mapSet tl k v x hx with h | h
      · rw [h]
        show k0 < k
        omega
      · exact hm.1 _ (List.mem_map_of_mem _ h)

theorem mem_of_mapFind {α : Type} (m : Map α) (k : Int) (v : α)
    (h : mapFind m k = some v) : (k, v) ∈ m := by
  induction m with
  | nil => simp [mapFind] at h
  | cons hd tl ih =>
    obtain ⟨k0, v0⟩ := hd
    unfold mapFind at h
    split_ifs at h with h1
    · simp only [Option.some.injEq] at h
      rw [← h1, ← h]
      exact List.mem_cons_self _ _
    · exact List.mem_cons_of_mem _ (ih h)

theorem mapFind_of_mem {α : Type} (m : Map α) (k : Int) (v : α)
    (hm : keysAscending m) (h : (k, v) ∈ m) : mapFind m k = some v := by
  induction m with
  | nil => simp at h
  | cons hd tl ih =>
    obtain ⟨k0, v0⟩ := hd
    unfold keysAscending at hm ih
    rw [List.map_cons, List.pairwise_cons] at hm
    rcases List.mem_cons.mp h with h | h
    · simp only [Prod.mk.injEq] at h
      simp [mapFind, h.1, h.2]
    · have hlt : k0 < k := hm.1 k (List.mem_map_of_mem Prod.fst h)
      have hne : ¬ k0 = k := by omega
      simp only [mapFind, hne, if_false]
      exact ih hm.2 h

theorem mapFind_eq_none_of_not_mem {α : Type} (m : Map α) (k : Int)
    (h : k ∉ m.map Prod.fst) : mapFind m k = none := by
  cases hf : mapFind m k with
  | none => rfl
  | some v => exact absurd (List.mem_map_of_mem Prod.fst (mem_of_mapFind m k v hf)) h

theorem keysAscending_step (st : State) (r : Operation)
    (h : keysAscending st.transactions) : keysAscending (step st r).transactions := by
  unfold step
  by_cases h1 : r.opType = "BEGIN"
  · simpa [h1] using h
  · by_cases h2 : r.opType = "COMMIT"
    · simpa [h2] using h
    · by_cases h3 : r.opType = "WRITE"
      · simp only [h3]
        exact keysAscending_mapSet _ _ _ h
      · by_cases h4 : r.opType = "READ"
        · simp only [h4]
          exact keysAscending_mapSet _ _ _ h
        · simpa [h1, h2, h3, h4] using h

theorem keysAscending_run (st : State) (operations : List Operation)
    (h : keysAscending st.transactions) : keysAscending (run st operations).transactions := by
  induction operations generalizing st with
  | nil => exact h
  | cons r rest ih => exact ih (step st r) (keysAscending_step st r h)

theorem keysAscending_build (operations : List Operation) :
    keysAscending (build operations).transactions :=
  keysAscending_run State.init operations (by simp [keysAscending, State.init])


/-! ## Lemmas on the emitter -/

theorem storeAll_cons (out : Map Event) (e : Event) (es : List Event) :
    storeAll out (e :: es) = storeAll (mapSet out e.time e) es := rfl

theorem emitLoop_eq_storeAll (timing : Map (Int × Int)) (txs : List (Int × List ElleOp))
    (index : Int) (out : Map Event) :
    emitLoop timing txs index out = storeAll out (genEvents timing txs index) := by
  induction txs generalizing index out with
  | nil => rfl
  | cons tx rest ih =>
    rw [emitLoop, genEvents, storeAll_cons, storeAll_cons, ih]

theorem elleOut_eq_storeAll (transactions : Map (List ElleOp)) (timing : Map (Int × Int)) :
    elleOut transactions timing = storeAll [] (genEvents timing transactions 0) :=
  emitLoop_eq_storeAll timing transactions 0 []

theorem keysAscending_storeAll (out : Map Event) (es : List Event)
    (h : keysAscending out) : keysAscending (storeAll out es) := by
  induction es generalizing out with
  | nil => exact h
  | cons e rest ih => exact ih _ (keysAscending_mapSet out e.time e h)

theorem mem_storeAll (out : Map Event) (es : List Event) (x : Int × Event)
    (hx : x ∈ storeAll out es) : x ∈ out ∨ (x.2 ∈ es ∧ x.1 = x.2.time) := by
  induction es generalizing out with
  | nil => exact Or.inl hx
  | cons e rest ih =>
    rw [storeAll_cons] at hx
    rcases ih _ hx with h | h
    · rcases mem_mapSet out e.time e x h with h | h
      · right
        rw [h]
        exact ⟨List.mem_cons_self _ _, rfl⟩
      · exact Or.inl h
    · exact Or.inr ⟨List.mem_cons_of_mem _ h.1, h.2⟩

theorem mapFind_storeAll_of_not_mem (out : Map Event) (es : List Event) (k : Int)
    (hk : k ∉ es.map Event.time) : mapFind (storeAll out es) k = mapFind out k := by
  induction es generalizing out with
  | nil => rfl
  | cons e rest ih =>
    rw [List.map_cons, List.mem_cons, not_or] at hk
    rw [storeAll_cons, ih _ hk.2, mapFind_mapSet, if_neg hk.1]

theorem writtenEvents_eq (transactions : Map (List ElleOp)) (timing : Map (Int × Int)) :
    writtenEvents transactions timing
      = (storeAll [] (genEvents timing transactions 0)).map Prod.snd := by
  rw [writtenEvents, elleOut_eq_storeAll]

theorem writtenEvents_times (transactions : Map (List ElleOp)) (timing : Map (Int × Int)) :
    (writtenEvents transactions timing).map Event.time
      = (elleOut transactions timing).map Prod.fst := by
  rw [writtenEvents, List.map_map]
  apply List.map_congr_left
  intro x hx
  rw [elleOut_eq_storeAll] at hx
  rcases mem_storeAll _ _ x hx with h | h
  · simp at h
  · exact h.2.symm

theorem writtenEvents_times_ascending (transactions : Map (List ElleOp))
    (timing : Map (Int × Int)) :
    ((writtenEvents transactions timing).map Event.time).Pairwise (· < ·) := by
  rw [writtenEvents_times, elleOut_eq_storeAll]
  exact keysAscending_storeAll [] _ (by simp [keysAscending])

theorem mem_genEvents_of_written (transactions : Map (List ElleOp)) (timing : Map (Int × Int))
    (e : Event) (he : e ∈ writtenEvents transactions timing) :
    e ∈ genEvents timing transactions 0 := by
  rw [writtenEvents_eq] at he
  obtain ⟨x, hx, rfl⟩ := List.mem_map.mp he
  rcases mem_storeAll _ _ x hx with h | h
  · simp at h
  · exact h.1

theorem genEvents_process (timing : Map (Int × Int)) (txs : List (Int × List ElleOp))
    (index : Int) (e : Event) (he : e ∈ genEvents timing txs index) :
    e.process ∈ txs.map Prod.fst := by
  induction txs generalizing index with
  | nil => simp [genEvents] at he
  | cons tx rest ih =>
    rw [genEvents, List.mem_cons, List.mem_cons] at he
    rcases he with h | h | h
    · rw [h]; simp [invokeEvent]
    · rw [h]; simp [okEvent]
    · exact List.mem_cons_of_mem _ (ih _ h)

theorem genEvents_filter_of_not_mem (timing : Map (Int × Int))
    (txs : List (Int × List ElleOp)) (index T : Int) (hT : T ∉ txs.map Prod.fst) :
    (genEvents timing txs index).filter (fun e => decide (e.process = T)) = [] := by
  rw [List.filter_eq_nil_iff]
  intro e he hp
  simp only [decide_eq_true_eq] at hp
  exact hT (hp ▸ genEvents_process timing txs index e he)

theorem mem_keys_mapSet {α : Type} (m : Map α) (k k' : Int) (v : α) :
    k' ∈ (mapSet m k v).map Prod.fst ↔ k' = k ∨ k' ∈ m.map Prod.fst := by
  induction m with
  | nil => simp [mapSet]
  | cons hd tl ih =>
    obtain ⟨k0, v0⟩ := hd
    unfold mapSet
    split_ifs with h1 h2
    · simp
    · subst h2
      simp
    · rw [List.map_cons, List.mem_cons, ih, List.map_cons, List.mem_cons]
      tauto

theorem step_transactions_eq (st : State) (r : Operation) :
    (step st r).transactions
      = if isReadOrWrite r = true then
          mapSet st.transactions (resolveTx st r.sesId)
            (mapGet st.transactions (resolveTx st r.sesId) [] ++ newOps st r)
        else st.transactions := by
  unfold step newOps resolveTx versionOf isReadOrWrite
  by_cases h1 : r.opType = "BEGIN"
  · simp [h1]
  · by_cases h2 : r.opType = "COMMIT"
    · simp [h2]
    · by_cases h3 : r.opType = "WRITE"
      · simp [h3, mapGet_mapSet, mapGet_ensureObject]
      · by_cases h4 : r.opType = "READ"
        · simp [h4, mapGet_ensureObject]
        · simp [h1, h2, h3, h4]

theorem step_keys (st : State) (r : Operation) (T : Int) :
    T ∈ (step st r).transactions.map Prod.fst
      ↔ T ∈ st.transactions.map Prod.fst
          ∨ (isReadOrWrite r = true ∧ resolveTx st r.sesId = T) := by
  rw [step_transactions_eq]
  by_cases h : isReadOrWrite r = true
  · rw [if_pos h, mem_keys_mapSet]
    constructor
    · rintro (h' | h')
      · exact Or.inr ⟨h, h'.symm⟩
      · exact Or.inl h'
    · rintro (h' | h')
      · exact Or.inr h'
      · exact Or.inl h'.2.symm
  · rw [if_neg h]
    constructor
    · exact Or.inl
    · rintro (h' | h')
      · exact h'
      · exact absurd h'.1 h

theorem run_keys (st : State) (operations : List Operation) (T : Int) :
    T ∈ (run st operations).transactions.map Prod.fst
      ↔ T ∈ st.transactions.map Prod.fst ∨ recordsOf T st operations ≠ [] := by
  induction operations generalizing st with
  | nil => simp [run_nil, recordsOf]
  | cons r rest ih =>
    rw [run_cons, ih, step_keys, recordsOf]
    by_cases hc : isReadOrWrite r = true ∧ resolveTx st r.sesId = T
    · simp [hc]
    · simp [hc]

theorem build_keys (operations : List Operation) (T : Int) :
    T ∈ (build operations).transactions.map Prod.fst
      ↔ recordsOf T State.init operations ≠ [] := by
  unfold build
  rw [run_keys]
  simp [State.init]

/-- The transaction id of a session after one of its COMMIT records: the id the
COMMIT resolved to plus the session id, as a `long long int`. -/
theorem resolveTx_step_commit (st : State) (r : Operation) (h : r.opType = "COMMIT") :
    resolveTx (step st r) r.sesId = wrapLongLong (resolveTx st r.sesId + r.sesId) := by
  have hcb : ¬ (("COMMIT" : String) = "BEGIN") := by decide
  rw [resolveTx_eq, resolveTx_eq]
  unfold step
  simp only [h, hcb, if_false, if_true, mapFind_mapSet, mapGet_ensureSession, Option.getD_some]


theorem mem_genEvents (timing : Map (Int × Int)) (txs : List (Int × List ElleOp))
    (index : Int) (e : Event) (he : e ∈ genEvents timing txs index) :
    ∃ (j : Int) (entry : Int × List ElleOp), entry ∈ txs ∧
      (e = invokeEvent timing j entry ∨ e = okEvent timing j entry) := by
  induction txs generalizing index with
  | nil => simp [genEvents] at he
  | cons tx rest ih =>
    rw [genEvents, List.mem_cons, List.mem_cons] at he
    rcases he with h | h | h
    · exact ⟨index, tx, List.mem_cons_self _ _, Or.inl h⟩
    · exact ⟨index + 1, tx, List.mem_cons_self _ _, Or.inr h⟩
    · obtain ⟨j, entry, hmem, hor⟩ := ih _ h
      exact ⟨j, entry, List.mem_cons_of_mem _ hmem, hor⟩


/-! ## The scenario of the specification, evaluated -/

theorem build_scenario_lt (S1 S2 : Int) (h : S1 < S2) :
    build (scenario S1 S2) =
      { sessionToTxMap := [(S1, wrapLongLong (S1 + S1)), (S2, wrapLongLong (S2 + S2))],
        objVersionMap := [(7, 0)],
        transactions := [(S1, [ElleOp.WriteOp 0 7 S1]), (S2, [ElleOp.ReadOp 0 7 S2 false])],
        transactionTime := [(S1, (0, 1)), (S2, (2, 3))],
        currTime := 4 } := by
  have h1 : ¬ S2 < S1 := by omega
  have h2 : ¬ S1 = S2 := by omega
  have h3 : ¬ S2 = S1 := by omega
  simp [build, run, scenario, step, State.init, ensureSession, ensureObject, mapContains,
    mapFind, mapSet, mapGet, h, h1, h2, h3]

theorem build_scenario_gt (S1 S2 : Int) (h : S2 < S1) :
    build (scenario S1 S2) =
      { sessionToTxMap := [(S2, wrapLongLong (S2 + S2)), (S1, wrapLongLong (S1 + S1))],
        objVersionMap := [(7, 0)],
        transactions := [(S2, [ElleOp.ReadOp 0 7 S2 false]), (S1, [ElleOp.WriteOp 0 7 S1])],
        transactionTime := [(S2, (2, 3)), (S1, (0, 1))],
        currTime := 4 } := by
  have h1 : ¬ S1 < S2 := by omega
  have h2 : ¬ S1 = S2 := by omega
  have h3 : ¬ S2 = S1 := by omega
  simp [build, run, scenario, step, State.init, ensureSession, ensureObject, mapContains,
    mapFind, mapSet, mapGet, h, h1, h2, h3]

theorem writeOp_toString_scenario (S1 : Int) :
    (ElleOp.WriteOp 0 7 S1).toString = "[:append 7 0]" := rfl

theorem readOp_toString_scenario_invoke (S2 : Int) :
    (ElleOp.ReadOp 0 7 S2 true).toString = "[:r 7 nil]" := rfl

theorem readOp_toString_scenario_ok (S2 : Int) :
    (ElleOp.ReadOp 0 7 S2 false).toString = "[:r 7 [0]]" := rfl


/-! ## Lemmas on the resolution of sessions -/

theorem step_sessionToTxMap (st : State) (r : Operation) :
    (step st r).sessionToTxMap
      = if r.opType = "COMMIT" then
          mapSet (ensureSession st.sessionToTxMap r.sesId) r.sesId
            (wrapLongLong
              (mapGet (ensureSession st.sessionToTxMap r.sesId) r.sesId 0 + r.sesId))
        else ensureSession st.sessionToTxMap r.sesId := by
  unfold step
  by_cases h1 : r.opType = "BEGIN"
  · simp [h1]
  · by_cases h2 : r.opType = "COMMIT"
    · simp [h2]
    · by_cases h3 : r.opType = "WRITE"
      · simp [h3]
      · by_cases h4 : r.opType = "READ"
        · simp [h4]
        · simp [h1, h2, h3, h4]

theorem resolveTx_step (st : State) (r : Operation) (s : Int) :
    resolveTx (step st r) s
      = if r.opType = "COMMIT" ∧ r.sesId = s then wrapLongLong (resolveTx st s + s)
        else resolveTx st s := by
  rw [resolveTx_eq, resolveTx_eq, step_sessionToTxMap]
  by_cases h2 : r.opType = "COMMIT"
  · rw [if_pos h2, mapFind_mapSet, mapGet_ensureSession, mapFind_ensureSession]
    by_cases hs : s = r.sesId
    · subst hs; simp [h2]
    · simp [hs, Ne.symm hs]
  · rw [if_neg h2, mapFind_ensureSession]
    by_cases hs : s = r.sesId
    · subst hs; simp [h2]
    · simp [hs, h2]

theorem wrapLongLong_add (a b : Int) :
    wrapLongLong (wrapLongLong a + b) = wrapLongLong (a + b) := by
  unfold wrapLongLong
  omega

theorem wrapLongLong_of_range (x : Int) (hlo : -9223372036854775808 ≤ x)
    (hhi : x ≤ 9223372036854775807) : wrapLongLong x = x := by
  unfold wrapLongLong
  omega

theorem wrapLongLong_range (x : Int) :
    -9223372036854775808 ≤ wrapLongLong x ∧ wrapLongLong x ≤ 9223372036854775807 := by
  unfold wrapLongLong
  omega

/-- The transaction id of session `s` after a run: unchanged when the run has no
COMMIT of `s`, else the id before plus `s` for each COMMIT, as a `long long int`. -/
theorem resolveTx_run (st : State) (operations : List Operation) (s : Int) :
    resolveTx (run st operations) s
      = if countCommits s operations = 0 then resolveTx st s
        else wrapLongLong (resolveTx st s + s * (countCommits s operations : Nat)) := by
  induction operations generalizing st with
  | nil => simp [run_nil, countCommits]
  | cons r rest ih =>
    rw [run_cons, ih, resolveTx_step]
    have hcount : countCommits s (r :: rest)
        = countCommits s rest + if r.opType = "COMMIT" ∧ r.sesId = s then 1 else 0 := by
      unfold countCommits
      rw [List.countP_cons]
      by_cases h : r.opType = "COMMIT" ∧ r.sesId = s
      · simp [h]
      · simp only [h, if_false, decide_False, Bool.false_eq_true]
    rw [hcount]
    by_cases h : r.opType = "COMMIT" ∧ r.sesId = s
    · rw [if_pos h, if_pos h]
      by_cases h0 : countCommits s rest = 0
      · rw [if_pos h0, h0, if_neg (by omega)]
        simp
      · rw [if_neg h0, if_neg (by omega), wrapLongLong_add]
        congr 1
        push_cast
        ring
    · rw [if_neg h, if_neg h, add_zero]

theorem resolveTx_init (s : Int) : resolveTx State.init s = s := by
  simp [resolveTx_eq, State.init, mapFind]

theorem resolveTx_build (operations : List Operation) (s : Int) :
    resolveTx (build operations) s
      = if countCommits s operations = 0 then s
        else wrapLongLong (s * (1 + (countCommits s operations : Nat))) := by
  unfold build
  rw [resolveTx_run, resolveTx_init]
  by_cases h0 : countCommits s operations = 0
  · rw [if_pos h0, if_pos h0]
  · rw [if_neg h0, if_neg h0]
    congr 1
    ring

theorem countCommits_eq_zero_of_no_record (operations : List Operation) (s : Int)
    (h : ∀ r ∈ operations, r.sesId ≠ s) : countCommits s operations = 0 := by
  unfold countCommits
  rw [List.countP_eq_zero]
  intro r hr
  simp [h r hr]

/-! ## Lemmas on the entries of `transactions` -/

theorem parseOpLog_foldl (acc : List Operation) (lines : List String) :
    lines.foldl
        (fun transactions line =>
          match parseLine line with
          | some transaction => transactions ++ [transaction]
          | none => transactions)
        acc
      = acc ++ lines.filterMap parseLine := by
  induction lines generalizing acc with
  | nil => simp
  | cons line rest ih =>
    rw [List.foldl_cons, ih, List.filterMap_cons]
    cases parseLine line with
    | none => rfl
    | some t => simp

theorem parseOpLog_eq_filterMap (lines : List String) :
    parseOpLog lines = lines.filterMap parseLine := by
  unfold parseOpLog
  rw [parseOpLog_foldl]
  rfl

theorem parseOpLog_eq_nil (lines : List String)
    (h : ∀ line ∈ lines, parseLine line = none) : parseOpLog lines = [] := by
  rw [parseOpLog_eq_filterMap, List.filterMap_eq_nil_iff]
  exact h


/-! ## Lemmas on the timing of a begun transaction -/

theorem beginBeforeCommit_step_begin (st : State) (r : Operation)
    (h : r.opType = "BEGIN") : beginBeforeCommit (step st r) (resolveTx st r.sesId) := by
  have hb : isBeginOrCommit r = true := by simp [isBeginOrCommit, h]
  unfold beginBeforeCommit
  rw [step_transactionTime, if_pos rfl, if_pos h, step_currTime, if_pos hb]
  exact ⟨by show st.currTime < st.currTime + 1; omega, Or.inl rfl⟩

theorem beginBeforeCommit_step (st : State) (r : Operation) (T : Int)
    (h : beginBeforeCommit st T) : beginBeforeCommit (step st r) T := by
  by_cases hT : resolveTx st r.sesId = T
  · by_cases h1 : r.opType = "BEGIN"
    · rw [← hT]
      exact beginBeforeCommit_step_begin st r h1
    · unfold beginBeforeCommit at h ⊢
      rw [step_transactionTime, if_pos hT, if_neg h1, step_currTime]
      by_cases h2 : r.opType = "COMMIT" ∨ r.opType = "WRITE" ∨ r.opType = "READ"
      · rw [if_pos h2]
        refine ⟨?_, Or.inr h.1⟩
        show (mapGet st.transactionTime T (0, 0)).1 < _
        split_ifs <;> omega
      · rw [if_neg h2]
        refine ⟨?_, h.2⟩
        split_ifs <;> omega
  · unfold beginBeforeCommit at h ⊢
    rw [step_transactionTime, if_neg hT, step_currTime]
    refine ⟨?_, h.2⟩
    split_ifs <;> omega

theorem beginBeforeCommit_run (st : State) (operations : List Operation) (T : Int)
    (h : beginBeforeCommit st T) : beginBeforeCommit (run st operations) T := by
  induction operations generalizing st with
  | nil => exact h
  | cons r rest ih => exact ih (step st r) (beginBeforeCommit_step st r T h)


/-! ## Lemmas on the last record of a transaction -/

theorem step_transactionTime_of_not_known (st : State) (r : Operation) (T : Int)
    (h : ¬ (isKnown r = true ∧ resolveTx st r.sesId = T)) :
    mapGet (step st r).transactionTime T (0, 0) = mapGet st.transactionTime T (0, 0) := by
  rw [step_transactionTime]
  by_cases hT : resolveTx st r.sesId = T
  · have hk : ¬ (r.opType = "BEGIN" ∨ r.opType = "COMMIT" ∨ r.opType = "WRITE"
        ∨ r.opType = "READ") := by
      intro hk
      exact h ⟨by simpa [isKnown] using hk, hT⟩
    have h1 : ¬ r.opType = "BEGIN" := fun e => hk (Or.inl e)
    have h2 : ¬ (r.opType = "COMMIT" ∨ r.opType = "WRITE" ∨ r.opType = "READ") :=
      fun e => hk (Or.inr e)
    rw [if_pos hT, if_neg h1, if_neg h2]
  · rw [if_neg hT]

theorem run_transactionTime_of_untouched (st : State) (operations : List Operation) (T : Int)
    (h : resolvedTo T isKnown st operations = []) :
    mapGet (run st operations).transactionTime T (0, 0)
      = mapGet st.transactionTime T (0, 0) := by
  induction operations generalizing st with
  | nil => rfl
  | cons r rest ih =>
    rw [resolvedTo, List.append_eq_nil] at h
    have hr : ¬ (isKnown r = true ∧ resolveTx st r.sesId = T) := by
      intro hc
      rw [if_pos hc] at h
      exact absurd h.1 (by simp)
    rw [run_cons, ih _ h.2, step_transactionTime_of_not_known st r T hr]

theorem build_currTime (operations : List Operation) :
    (build operations).currTime = (operations.countP isBeginOrCommit : Nat) := by
  unfold build
  rw [run_currTime]
  show (0 : Int) + _ = _
  ring


/-! ## Lemmas on colliding times -/

theorem storeAll_append (out : Map Event) (xs ys : List Event) :
    storeAll out (xs ++ ys) = storeAll (storeAll out xs) ys := by
  simp [storeAll, List.foldl_append]

theorem mapFind_storeAll_of_mem (out : Map Event) (es : List Event) (k : Int)
    (hk : k ∈ es.map Event.time) :
    ∃ e ∈ es, e.time = k ∧ mapFind (storeAll out es) k = some e := by
  induction es generalizing out with
  | nil => simp at hk
  | cons e0 rest ih =>
    rw [storeAll_cons]
    by_cases hrest : k ∈ rest.map Event.time
    · obtain ⟨e, he, ht, hf⟩ := ih (mapSet out e0.time e0) hrest
      exact ⟨e, List.mem_cons_of_mem _ he, ht, hf⟩
    · rw [List.map_cons, List.mem_cons] at hk
      have h0 : k = e0.time := by
        rcases hk with h | h
        · exact h
        · exact absurd h hrest
      refine ⟨e0, List.mem_cons_self _ _, h0.symm, ?_⟩
      rw [mapFind_storeAll_of_not_mem _ _ _ hrest, mapFind_mapSet, if_pos h0]

theorem mem_writtenEvents_iff (transactions : Map (List ElleOp)) (timing : Map (Int × Int))
    (e : Event) :
    e ∈ writtenEvents transactions timing
      ↔ mapFind (elleOut transactions timing) e.time = some e := by
  constructor
  · intro he
    unfold writtenEvents at he
    obtain ⟨x, hx, rfl⟩ := List.mem_map.mp he
    have hkeys : keysAscending (elleOut transactions timing) := by
      rw [elleOut_eq_storeAll]
      exact keysAscending_storeAll [] _ (by simp [keysAscending])
    have htime : x.1 = x.2.time := by
      rw [elleOut_eq_storeAll] at hx
      rcases mem_storeAll _ _ x hx with h | h
      · simp at h
      · exact h.2
    rw [← htime]
    exact mapFind_of_mem _ x.1 x.2 hkeys hx
  · intro hf
    unfold writtenEvents
    exact List.mem_map.mpr ⟨(e.time, e), mem_of_mapFind _ _ _ hf, rfl⟩

theorem genEvents_index_ge (timing : Map (Int × Int)) (txs : List (Int × List ElleOp))
    (index : Int) : ∀ e ∈ genEvents timing txs index, index ≤ e.index := by
  induction txs generalizing index with
  | nil => simp [genEvents]
  | cons tx rest ih =>
    intro e he
    rw [genEvents, List.mem_cons, List.mem_cons] at he
    rcases he with h | h | h
    · rw [h]; show index ≤ index; omega
    · rw [h]; show index ≤ index + 1; omega
    · have := ih (index + 2) e h
      omega

theorem genEvents_index_pairwise (timing : Map (Int × Int)) (txs : List (Int × List ElleOp))
    (index : Int) : (genEvents timing txs index).Pairwise (fun a b => a.index < b.index) := by
  induction txs generalizing index with
  | nil => simp [genEvents]
  | cons tx rest ih =>
    rw [genEvents, List.pairwise_cons, List.pairwise_cons]
    refine ⟨?_, ?_, ih (index + 2)⟩
    · intro e he
      rw [List.mem_cons] at he
      rcases he with h | h
      · rw [h]; show index < index + 1; omega
      · have := genEvents_index_ge timing rest (index + 2) e h
        show index < e.index
        omega
    · intro e he
      have := genEvents_index_ge timing rest (index + 2) e he
      show index + 1 < e.index
      omega

/-- A generated event is written exactly when no event generated after it has
the same time. -/
theorem written_iff_last (transactions : Map (List ElleOp)) (timing : Map (Int × Int))
    (pre post : List Event) (e : Event)
    (hgen : genEvents timing transactions 0 = pre ++ e :: post) :
    e ∈ writtenEvents transactions timing ↔ e.time ∉ post.map Event.time := by
  have hout : elleOut transactions timing
      = storeAll (mapSet (storeAll [] pre) e.time e) post := by
    rw [elleOut_eq_storeAll, hgen, storeAll_append, storeAll_cons]
  rw [mem_writtenEvents_iff, hout]
  constructor
  · intro hf hmem
    obtain ⟨e', he', _, hf'⟩ :=
      mapFind_storeAll_of_mem (mapSet (storeAll [] pre) e.time e) post e.time hmem
    rw [hf] at hf'
    have heq : e = e' := Option.some.inj hf'
    have hpw := genEvents_index_pairwise timing transactions 0
    rw [hgen, List.pairwise_append, List.pairwise_cons] at hpw
    have := hpw.2.1.1 e' he'
    rw [← heq] at this
    exact lt_irrefl _ this
  · intro hnot
    rw [mapFind_storeAll_of_not_mem _ _ _ hnot, mapFind_mapSet, if_pos rfl]


/-! ## Lemmas on well-formed sessions -/

theorem writtenEvents_nodup (transactions : Map (List ElleOp)) (timing : Map (Int × Int)) :
    (writtenEvents transactions timing).Nodup :=
  List.Nodup.of_map Event.time
    ((writtenEvents_times_ascending transactions timing).imp (fun h => ne_of_lt h))

theorem strFind_occurs (pat s : List Char) (i : Nat) (h : strFind pat s = some i) :
    i ≤ s.length ∧ startsWith pat (s.drop i) = true := by
  induction s generalizing i with
  | nil =>
    unfold strFind at h
    split_ifs at h with h0
    simp only [Option.some.injEq] at h
    subst h
    exact ⟨le_refl _, h0⟩
  | cons c cs ih =>
    unfold strFind at h
    split_ifs at h with h0
    · simp only [Option.some.injEq] at h
      subst h
      exact ⟨Nat.zero_le _, h0⟩
    · cases hj : strFind pat cs with
      | none => rw [hj] at h; simp at h
      | some j =>
        rw [hj] at h
        simp only [Option.map_some', Option.some.injEq] at h
        subst h
        obtain ⟨h1, h2⟩ := ih j hj
        exact ⟨by simp only [List.length_cons]; omega, by simpa using h2⟩

theorem strRfind_occurs (pat s : List Char) (i : Nat) (h : strRfind pat s = some i) :
    i ≤ s.length ∧ startsWith pat (s.drop i) = true := by
  induction s generalizing i with
  | nil =>
    unfold strRfind at h
    split_ifs at h with h0
    simp only [Option.some.injEq] at h
    subst h
    exact ⟨le_refl _, h0⟩
  | cons c cs ih =>
    unfold strRfind at h
    cases hj : strRfind pat cs with
    | some j =>
      rw [hj] at h
      simp only [Option.some.injEq] at h
      subst h
      obtain ⟨h1, h2⟩ := ih j hj
      exact ⟨by simp only [List.length_cons]; omega, by simpa using h2⟩
    | none =>
      rw [hj] at h
      simp only at h
      split_ifs at h with h0
      simp only [Option.some.injEq] at h
      subst h
      exact ⟨Nat.zero_le _, h0⟩

theorem lineContent_none_of_no_two (line : List Char)
    (h : ¬ ∃ i j : Nat, i ≠ j ∧ occursAt line i ∧ occursAt line j) :
    lineContent line = none := by
  unfold lineContent
  cases hs : strFind sentinel line with
  | none => rfl
  | some start =>
    cases he : strRfind sentinel line with
    | none => rfl
    | some last =>
      by_cases heq : start = last
      · simp [heq]
      · exact absurd ⟨start, last, heq, strFind_occurs _ _ _ hs, strRfind_occurs _ _ _ he⟩ h

/-! ## Lemmas on tokens and extractions -/

theorem tokensGo_of_ne_nil (s cur : List Char) (hcur : cur ≠ []) :
    tokensGo s cur
      = (cur ++ s.takeWhile (fun c => !isSpace c))
          :: tokens (s.dropWhile (fun c => !isSpace c)) := by
  induction s generalizing cur with
  | nil => simp [tokensGo, tokens, hcur]
  | cons c cs ih =>
    by_cases hc : isSpace c = true
    · simp [tokensGo, tokens, hc, hcur]
    · have hc' : isSpace c = false := by simpa using hc
      rw [tokensGo, if_neg hc, ih (cur ++ [c]) (by simp)]
      simp [hc']

theorem tokens_dropWhile (s : List Char) : tokens (s.dropWhile isSpace) = tokens s := by
  induction s with
  | nil => rfl
  | cons c cs ih =>
    by_cases hc : isSpace c = true
    · rw [List.dropWhile_cons_of_pos hc, ih]
      simp [tokens, tokensGo, hc]
    · rw [List.dropWhile_cons_of_neg hc]

theorem tokens_cons_of_not_space (c : Char) (cs : List Char) (hc : isSpace c = false) :
    tokens (c :: cs)
      = (c :: cs).takeWhile (fun c => !isSpace c)
          :: tokens ((c :: cs).dropWhile (fun c => !isSpace c)) := by
  have h1 : tokens (c :: cs) = tokensGo cs [c] := by
    simp [tokens, tokensGo, hc]
  rw [h1, tokensGo_of_ne_nil cs [c] (by simp)]
  simp [hc]

theorem dropWhile_isSpace_head (s : List Char) (c : Char) (cs : List Char)
    (h : s.dropWhile isSpace = c :: cs) : isSpace c = false := by
  have := List.head?_dropWhile_not isSpace s
  rw [h] at this
  simpa using this

theorem extractString_failed (buf : List Char) (str : String) :
    extractString { buf := buf, failed := true } str = ({ buf := buf, failed := true }, str) := by
  simp [extractString]

theorem extractString_nil (buf : List Char) (str : String) (h : tokens buf = []) :
    extractString { buf := buf, failed := false } str = ({ buf := [], failed := true }, str) := by
  cases hr : buf.dropWhile isSpace with
  | nil => simp [extractString, hr]
  | cons c cs =>
    have hc := dropWhile_isSpace_head buf c cs hr
    rw [← tokens_dropWhile, hr, tokens_cons_of_not_space c cs hc] at h
    simp at h

theorem extractString_cons (buf : List Char) (str : String) (t : List Char)
    (ts : List (List Char)) (h : tokens buf = t :: ts) :
    ∃ buf' : List Char,
      extractString { buf := buf, failed := false } str
        = ({ buf := buf', failed := false }, String.mk t)
      ∧ tokens buf' = ts := by
  cases hr : buf.dropWhile isSpace with
  | nil =>
    rw [← tokens_dropWhile, hr] at h
    simp [tokens, tokensGo] at h
  | cons c cs =>
    have hc := dropWhile_isSpace_head buf c cs hr
    rw [← tokens_dropWhile, hr, tokens_cons_of_not_space c cs hc] at h
    simp only [List.cons.injEq] at h
    refine ⟨(c :: cs).dropWhile (fun c => !isSpace c), ?_, h.2⟩
    simp only [extractString, hr]
    rw [h.1]
    simp


theorem isDigit_of_isSpace (c : Char) (h : isSpace c = true) : isDigit c = false := by
  simp only [isSpace, decide_eq_true_eq] at h
  simp only [isDigit, decide_eq_false_iff_not, not_and, not_le]
  omega

theorem takeWhile_dropWhile_append (p : Char → Bool) (a b : List Char)
    (ha : ∀ x ∈ a, p x = true) (hb : ∀ x, b.head? = some x → p x = false) :
    (a ++ b).takeWhile p = a ∧ (a ++ b).dropWhile p = b := by
  induction a with
  | nil =>
    cases b with
    | nil => simp
    | cons x xs =>
      have := hb x rfl
      simp [this]
  | cons y ys ih =>
    have hy : p y = true := ha y (List.mem_cons_self _ _)
    obtain ⟨h1, h2⟩ := ih (fun x hx => ha x (List.mem_cons_of_mem _ hx))
    simp [hy, h1, h2]

theorem extractInt_failed (lo hi : Int) (buf : List Char) (v : Int) :
    extractInt lo hi { buf := buf, failed := true } v = ({ buf := buf, failed := true }, v) := by
  simp [extractInt]

/-- The extraction of an integer whose next token is a decimal integer in range:
the variable gets the value of the token and the stream goes past the token. -/
theorem extractInt_decimal (lo hi : Int) (buf : List Char) (v : Int) (t : List Char)
    (ts : List (List Char)) (h : tokens buf = t :: ts) (hd : isDecimal t = true)
    (hlo : lo ≤ decimalValue t) (hhi : decimalValue t ≤ hi) :
    ∃ buf' : List Char,
      extractInt lo hi { buf := buf, failed := false } v
        = ({ buf := buf', failed := false }, decimalValue t)
      ∧ tokens buf' = ts := by
  cases hr : buf.dropWhile isSpace with
  | nil =>
    rw [← tokens_dropWhile, hr] at h
    simp [tokens, tokensGo] at h
  | cons c cs =>
    have hc := dropWhile_isSpace_head buf c cs hr
    rw [← tokens_dropWhile, hr, tokens_cons_of_not_space c cs hc] at h
    simp only [List.cons.injEq] at h
    obtain ⟨ht, hts⟩ := h
    have hrsplit : c :: cs = t ++ (c :: cs).dropWhile (fun c => !isSpace c) := by
      rw [← ht, List.takeWhile_append_dropWhile]
    have hthead : t = c :: cs.takeWhile (fun c => !isSpace c) := by
      rw [← ht]; simp [hc]
    have hresthead : ∀ x, ((c :: cs).dropWhile (fun c => !isSpace c)).head? = some x →
        isDigit x = false := by
      intro x hx
      have := List.head?_dropWhile_not (fun c => !isSpace c) (c :: cs)
      rw [hx] at this
      simp only [Bool.not_eq_false'] at this
      exact isDigit_of_isSpace x this
    have hcs : cs = cs.takeWhile (fun c => !isSpace c)
        ++ (c :: cs).dropWhile (fun c => !isSpace c) := by
      have := hrsplit
      rw [hthead] at this
      simpa using this
    refine ⟨(c :: cs).dropWhile (fun c => !isSpace c), ?_, hts⟩
    by_cases hsign : c = '-' ∨ c = '+'
    · have hds : (cs.takeWhile (fun c => !isSpace c)) ≠ []
          ∧ ∀ x ∈ cs.takeWhile (fun c => !isSpace c), isDigit x = true := by
        have := hd
        rw [hthead] at this
        simpa [isDecimal, hsign] using this
      obtain ⟨h1, h2⟩ := takeWhile_dropWhile_append isDigit _ _ hds.2 hresthead
      rw [← hcs] at h1 h2
      have hval : decimalValue t
          = if c = '-' then -(digitsValue (cs.takeWhile (fun c => !isSpace c)) : Int)
            else (digitsValue (cs.takeWhile (fun c => !isSpace c)) : Int) := by
        rw [hthead]
        simp [decimalValue, hsign]
      rw [hval] at hlo hhi ⊢
      simp only [extractInt, hr]
      simp only [Bool.false_eq_true, if_false, List.head?_cons, Option.some.injEq, hsign,
        if_true, List.tail_cons, h1, h2, hds.1, reduceCtorEq]
      by_cases hneg : c = '-'
      · simp only [hneg, decide_True, if_true] at hlo hhi ⊢
        rw [if_neg (not_lt.mpr hlo), if_neg (not_lt.mpr hhi)]
      · simp only [hneg, decide_False, if_false, Bool.false_eq_true] at hlo hhi ⊢
        rw [if_neg (not_lt.mpr hlo), if_neg (not_lt.mpr hhi)]
    · have hneg : ¬ c = '-' := fun e => hsign (Or.inl e)
      have hplus : ¬ c = '+' := fun e => hsign (Or.inr e)
      have hds : ∀ x ∈ t, isDigit x = true := by
        have := hd
        rw [hthead] at this ⊢
        simp only [isDecimal, List.head?_cons, Option.some.injEq, hsign, if_false,
          Bool.and_eq_true, decide_eq_true_eq, List.all_eq_true] at this
        exact this.2
      obtain ⟨h1, h2⟩ := takeWhile_dropWhile_append isDigit _ _ hds hresthead
      rw [← hrsplit] at h1 h2
      have htne : t ≠ [] := by rw [hthead]; simp
      have hval : decimalValue t = (digitsValue t : Int) := by
        rw [hthead]
        simp [decimalValue, hplus, hneg]
      rw [hval] at hlo hhi ⊢
      simp only [extractInt, hr]
      simp only [Bool.false_eq_true, if_false, List.head?_cons, Option.some.injEq, hplus,
        hneg, or_self, decide_False, h1, h2, htne, reduceCtorEq]
      rw [if_neg (not_lt.mpr hlo), if_neg (not_lt.mpr hhi)]


/-! ## Lemmas on the parse of one line -/

theorem parseLine_of_no_content (line : String) (h : lineContent line.toList = none) :
    parseLine line = none := by
  unfold parseLine
  rw [h]

/-- The parse of a line with content, written with the results of the successive
extractions. -/
theorem parseLine_of_content (line : String) (content : List Char)
    (h : lineContent line.toList = some content) :
    parseLine line
      = if (extractString (extractString { buf := content, failed := false } "").1 "").2
            ∈ keywords then
          if (extractString (extractString { buf := content, failed := false } "").1 "").2
                = "BEGIN"
              ∨ (extractString (extractString { buf := content, failed := false } "").1 "").2
                = "COMMIT" then
            some
              { sesId :=
                  (extractInt llongMin llongMax
                    (extractString
                      (extractString (extractString { buf := content, failed := false } "").1
                        "").1
                      (extractString { buf := content, failed := false } "").2).1 (-1)).2
                opType :=
                  (extractString (extractString { buf := content, failed := false } "").1 "").2
                objectId := -1 }
          else if (extractString (extractString { buf := content, failed := false } "").1 "").2
                = "WRITE"
              ∨ (extractString (extractString { buf := content, failed := false } "").1 "").2
                = "READ" then
            some
              { sesId :=
                  (extractInt llongMin llongMax
                    (extractString
                      (extractString (extractString { buf := content, failed := false } "").1
                        "").1
                      (extractString { buf := content, failed := false } "").2).1 (-1)).2
                opType :=
                  (extractString (extractString { buf := content, failed := false } "").1 "").2
                objectId :=
                  (extractInt intMin intMax
                    (extractString
                      (extractInt llongMin llongMax
                        (extractString
                          (extractString (extractString { buf := content, failed := false } "").1
                            "").1
                          (extractString { buf := content, failed := false } "").2).1 (-1)).1
                      (extractString
                        (extractString (extractString { buf := content, failed := false } "").1
                          "").1
                        (extractString { buf := content, failed := false } "").2).2).1
                    (-1)).2 }
          else
            some
              { sesId := -1
                opType :=
                  (extractString (extractString { buf := content, failed := false } "").1 "").2
                objectId := -1 }
        else none := by
  unfold parseLine
  rw [h]


theorem two_tokens (content t0 t1 : List Char) (ts : List (List Char))
    (h : tokens content = t0 :: t1 :: ts) :
    ∃ buf2 : List Char,
      (extractString { buf := content, failed := false } "").2 = String.mk t0
      ∧ extractString (extractString { buf := content, failed := false } "").1 ""
          = ({ buf := buf2, failed := false }, String.mk t1)
      ∧ tokens buf2 = ts := by
  obtain ⟨buf1, h1, htok1⟩ := extractString_cons content "" t0 (t1 :: ts) h
  obtain ⟨buf2, h2, htok2⟩ := extractString_cons buf1 "" t1 ts htok1
  refine ⟨buf2, ?_, ?_, htok2⟩
  · rw [h1]
  · rw [h1]
    exact h2

theorem second_token_empty (content : List Char) (h : (tokens content)[1]? = none) :
    (extractString (extractString { buf := content, failed := false } "").1 "").2 = "" := by
  cases htok : tokens content with
  | nil =>
    rw [extractString_nil content "" htok, extractString_failed]
  | cons t0 ts =>
    cases ts with
    | nil =>
      obtain ⟨buf1, h1, htok1⟩ := extractString_cons content "" t0 [] htok
      rw [h1, extractString_nil buf1 "" htok1]
    | cons t1 ts' =>
      rw [htok] at h
      simp at h

theorem parseLine_none_of_second_token (line : String) (content : List Char)
    (hc : lineContent line.toList = some content)
    (h : ∀ t, (tokens content)[1]? = some t → String.mk t ∉ keywords) :
    parseLine line = none := by
  rw [parseLine_of_content line content hc]
  cases h1 : (tokens content)[1]? with
  | none =>
    rw [second_token_empty content h1]
    rfl
  | some t1 =>
    have hk := h t1 h1
    cases htok : tokens content with
    | nil => rw [htok] at h1; simp at h1
    | cons t0 ts =>
      cases ts with
      | nil => rw [htok] at h1; simp at h1
      | cons t1' ts' =>
        rw [htok] at h1
        simp only [List.getElem?_cons_succ, List.getElem?_cons_zero, Option.some.injEq] at h1
        subst h1
        obtain ⟨buf2, _, h2, _⟩ := two_tokens content t0 t1' ts' htok
        rw [h2]
        simp only [hk, if_false]

theorem parseLine_begin_commit (line : String) (content t0 t1 t2 t3 : List Char)
    (rest : List (List Char)) (hc : lineContent line.toList = some content)
    (htok : tokens content = t0 :: t1 :: t2 :: t3 :: rest)
    (hkey : String.mk t1 = "BEGIN" ∨ String.mk t1 = "COMMIT")
    (hd : isDecimal t3 = true) (hlo : llongMin ≤ decimalValue t3)
    (hhi : decimalValue t3 ≤ llongMax) :
    parseLine line = some { sesId := decimalValue t3, opType := String.mk t1, objectId := -1 } := by
  obtain ⟨buf2, h1, h2, htok2⟩ := two_tokens content t0 t1 (t2 :: t3 :: rest) htok
  obtain ⟨buf3, h3, htok3⟩ := extractString_cons buf2 (String.mk t0) t2 (t3 :: rest) htok2
  obtain ⟨buf4, h4, _⟩ :=
    extractInt_decimal llongMin llongMax buf3 (-1) t3 rest htok3 hd hlo hhi
  have hmem : String.mk t1 ∈ keywords := by
    rcases hkey with h | h <;> rw [h] <;> decide
  rw [parseLine_of_content line content hc, h2, h1]
  simp only [hmem, hkey, if_true, h3, h4]

theorem parseLine_read_write (line : String) (content t0 t1 t2 t3 t4 t5 : List Char)
    (rest : List (List Char)) (hc : lineContent line.toList = some content)
    (htok : tokens content = t0 :: t1 :: t2 :: t3 :: t4 :: t5 :: rest)
    (hkey : String.mk t1 = "WRITE" ∨ String.mk t1 = "READ")
    (hd3 : isDecimal t3 = true) (hlo3 : llongMin ≤ decimalValue t3)
    (hhi3 : decimalValue t3 ≤ llongMax)
    (hd5 : isDecimal t5 = true) (hlo5 : intMin ≤ decimalValue t5)
    (hhi5 : decimalValue t5 ≤ intMax) :
    parseLine line
      = some { sesId := decimalValue t3, opType := String.mk t1,
               objectId := decimalValue t5 } := by
  obtain ⟨buf2, h1, h2, htok2⟩ := two_tokens content t0 t1 (t2 :: t3 :: t4 :: t5 :: rest) htok
  obtain ⟨buf3, h3, htok3⟩ :=
    extractString_cons buf2 (String.mk t0) t2 (t3 :: t4 :: t5 :: rest) htok2
  obtain ⟨buf4, h4, htok4⟩ :=
    extractInt_decimal llongMin llongMax buf3 (-1) t3 (t4 :: t5 :: rest) htok3 hd3 hlo3 hhi3
  obtain ⟨buf5, h5, htok5⟩ := extractString_cons buf4 (String.mk t2) t4 (t5 :: rest) htok4
  obtain ⟨buf6, h6, _⟩ :=
    extractInt_decimal intMin intMax buf5 (-1) t5 rest htok5 hd5 hlo5 hhi5
  have hmem : String.mk t1 ∈ keywords := by
    rcases hkey with h | h <;> rw [h] <;> decide
  have hnot : ¬ (String.mk t1 = "BEGIN" ∨ String.mk t1 = "COMMIT") := by
    rcases hkey with h | h <;> rw [h] <;> decide
  rw [parseLine_of_content line content hc, h2, h1]
  simp only [hmem, hkey, hnot, if_true, if_false, h3, h4, h5, h6]

theorem parseOpLog_drop_line (l1 l2 : List String) (line : String)
    (h : parseLine line = none) : parseOpLog (l1 ++ line :: l2) = parseOpLog (l1 ++ l2) := by
  rw [parseOpLog_eq_filterMap, parseOpLog_eq_filterMap, List.filterMap_append,
    List.filterMap_append, List.filterMap_cons, h]


/-! ## Lemmas on the extracted content -/

theorem strRfind_complete (pat s : List Char) (j : Nat) (hj : j ≤ s.length)
    (h : startsWith pat (s.drop j) = true) : ∃ e, strRfind pat s = some e ∧ j ≤ e := by
  induction s generalizing j with
  | nil =>
    have hj0 : j = 0 := by simpa using hj
    subst hj0
    exact ⟨0, by simp only [strRfind]; rw [if_pos (by simpa using h)], le_refl _⟩
  | cons c cs ih =>
    cases j with
    | zero =>
      cases hk : strRfind pat cs with
      | some k => exact ⟨k + 1, by simp [strRfind, hk], Nat.zero_le _⟩
      | none =>
        refine ⟨0, ?_, le_refl _⟩
        simp only [strRfind, hk]
        rw [if_pos (by simpa using h)]
    | succ j' =>
      have hj' : j' ≤ cs.length := by simpa using hj
      obtain ⟨k, hk, hle⟩ := ih j' hj' (by simpa using h)
      exact ⟨k + 1, by simp [strRfind, hk], by omega⟩

theorem sentinel_not_adjacent (l : List Char) (h : startsWith sentinel l = true) :
    startsWith sentinel (l.drop 1) = false := by
  rcases l with _ | ⟨a, _ | ⟨b, _ | ⟨c, _ | ⟨d, _ | ⟨e, l'⟩⟩⟩⟩⟩ <;>
    simp [startsWith, sentinel] at h
  obtain ⟨_, hb, _, _, _⟩ := h
  rcases l' with _ | ⟨f, l''⟩ <;> simp [startsWith, sentinel, ← hb]

/-- The content of a line: the sentinel is found first at `start` and last at
`last`, at least two characters further, and the content is the text from position
`start + 2` up to position `last`. -/
theorem lineContent_spec (line content : List Char) (h : lineContent line = some content) :
    ∃ start last : Nat,
      strFind sentinel line = some start ∧ strRfind sentinel line = some last
        ∧ start + 2 ≤ last
        ∧ content = (line.drop (start + 2)).take (last - (start + 2)) := by
  unfold lineContent at h
  cases hs : strFind sentinel line with
  | none => rw [hs] at h; simp at h
  | some start =>
    cases he : strRfind sentinel line with
    | none => rw [hs, he] at h; simp at h
    | some last =>
      rw [hs, he] at h
      simp only at h
      by_cases heq : start = last
      · rw [if_pos heq] at h; simp at h
      · rw [if_neg heq] at h
        obtain ⟨hs1, hs2⟩ := strFind_occurs _ _ _ hs
        obtain ⟨he1, he2⟩ := strRfind_occurs _ _ _ he
        obtain ⟨e', he', hle⟩ := strRfind_complete sentinel line start hs1 hs2
        rw [he] at he'
        have hle' : start ≤ last := by
          have := Option.some.inj he'
          omega
        have hne1 : last ≠ start + 1 := by
          intro h1
          have := sentinel_not_adjacent _ hs2
          rw [List.drop_drop, ← h1, he2] at this
          simp at this
        have h2 : start + 2 ≤ last := by omega
        refine ⟨start, last, rfl, rfl, h2, ?_⟩
        rw [if_pos h2] at h
        have := Option.some.inj h
        rw [← this, substr, Nat.sub_sub]


/-! ## Lemmas on the events of one entry among the others -/

theorem genEvents_append (timing : Map (Int × Int)) (a b : List (Int × List ElleOp))
    (index : Int) :
    genEvents timing (a ++ b) index
      = genEvents timing a index ++ genEvents timing b (index + 2 * (a.length : Int)) := by
  induction a generalizing index with
  | nil => simp [genEvents]
  | cons tx rest ih =>
    rw [List.cons_append, genEvents, genEvents, ih, List.length_cons]
    have e1 : index + 2 + 2 * (rest.length : Int) = index + 2 * ((rest.length + 1 : Nat) : Int) := by
      push_cast; ring
    rw [e1]
    rfl

/-- The events generated for a map in which the entry `tx` stands after the entries
`before` and ahead of the entries `after`. -/
theorem genEvents_middle (timing : Map (Int × Int)) (before after : List (Int × List ElleOp))
    (tx : Int × List ElleOp) :
    genEvents timing (before ++ tx :: after) 0
      = genEvents timing before 0
          ++ invokeEvent timing (2 * (before.length : Int)) tx
            :: okEvent timing (2 * (before.length : Int) + 1) tx
            :: genEvents timing after (2 * (before.length : Int) + 2) := by
  rw [genEvents_append, genEvents, zero_add]

/-- A transaction id without READ and WRITE record is the `:process` of no written
event. -/
theorem written_process_ne_of_no_records (operations : List Operation) (T : Int)
    (hT : recordsOf T State.init operations = []) :
    ∀ e ∈ writtenEvents (build operations).transactions (build operations).transactionTime,
      e.process ≠ T := by
  intro e he hp
  have hkey : T ∉ (build operations).transactions.map Prod.fst := by
    rw [build_keys]
    exact fun h => h hT
  exact hkey (hp ▸ genEvents_process _ _ 0 e (mem_genEvents_of_written _ _ e he))


/-! ## The claims -/

/-- C1: for every list of parsed operations and every object id `o`, the versions
of the `WriteOp`s pushed for the WRITE records on `o`, taken in input order, are
`0, 1, ..., n-1`, with `n` the number of WRITE records on `o`; and the op pushed
for a WRITE record on `o` stands in the final vector of its transaction right after
the ops the vector held before, with version the number of earlier WRITE records
on `o`, whatever sessions issue them and whatever records are interleaved. -/
theorem C1_write_versions (operations : List Operation) (o : Int) :
    writeVersions o State.init operations
        = (List.range (countWrites o operations)).map (fun i : Nat => (i : Int))
    ∧ ∀ (pre post : List Operation) (r : Operation),
        operations = pre ++ r :: post → isWriteOn o r = true →
        ∃ later : List ElleOp,
          mapGet (build operations).transactions (resolveTx (build pre) r.sesId) []
            = mapGet (build pre).transactions (resolveTx (build pre) r.sesId) []
                ++ ElleOp.WriteOp (countWrites o pre) o (resolveTx (build pre) r.sesId)
                    :: later := by
  constructor
  · rw [writeVersions_eq, versionOf_init]
    apply List.map_congr_left
    intro i _
    ring
  · intro pre post r hops hw
    have hw' : r.opType = "WRITE" ∧ r.objectId = o := by simpa [isWriteOn] using hw
    refine ⟨opsFor (resolveTx (build pre) r.sesId) (step (build pre) r) post, ?_⟩
    rw [hops, build_split, newOps_write _ r hw'.1, hw'.2, versionOf_build]
    simp

/-- C1, at a concrete input: three WRITE records on object 7 from three sessions,
interleaved with other records. -/
theorem C1_write_versions_witness :
    isWriteOn 7 ⟨2, "WRITE", 7⟩ = true ∧
    ∃ later : List ElleOp,
      mapGet (build ([⟨1, "BEGIN", -1⟩, ⟨1, "WRITE", 7⟩, ⟨2, "READ", 7⟩]
          ++ ⟨2, "WRITE", 7⟩ :: [⟨1, "WRITE", 8⟩, ⟨3, "WRITE", 7⟩])).transactions
        (resolveTx (build [⟨1, "BEGIN", -1⟩, ⟨1, "WRITE", 7⟩, ⟨2, "READ", 7⟩]) 2) []
        = mapGet (build [⟨1, "BEGIN", -1⟩, ⟨1, "WRITE", 7⟩, ⟨2, "READ", 7⟩]).transactions
            (resolveTx (build [⟨1, "BEGIN", -1⟩, ⟨1, "WRITE", 7⟩, ⟨2, "READ", 7⟩]) 2) []
          ++ ElleOp.WriteOp
              (countWrites 7 [⟨1, "BEGIN", -1⟩, ⟨1, "WRITE", 7⟩, ⟨2, "READ", 7⟩]) 7
              (resolveTx (build [⟨1, "BEGIN", -1⟩, ⟨1, "WRITE", 7⟩, ⟨2, "READ", 7⟩]) 2)
            :: later :=
  ⟨by decide,
   (C1_write_versions _ 7).2 [⟨1, "BEGIN", -1⟩, ⟨1, "WRITE", 7⟩, ⟨2, "READ", 7⟩]
     [⟨1, "WRITE", 8⟩, ⟨3, "WRITE", 7⟩] ⟨2, "WRITE", 7⟩ rfl (by decide)⟩

/-- C2: a READ record on object `o` preceded in the input by exactly `k ≥ 1` WRITE
records on `o` pushes `ReadOp (k-1) o`, which stays in the final vector of its
transaction; in the ok event of that transaction, built after the invoke pass has
flagged the op and once `setToOk` has cleared the flag again, it renders as
`[:r o [0 1 ... (k-1)]]` (the integers separated by single spaces), and in the invoke
event as `[:r o nil]`. -/
theorem C2_read_after_writes (pre post : List Operation) (r : Operation) (k : Nat)
    (timing : Map (Int × Int)) (i j : Int)
    (hr : r.opType = "READ") (hk : 1 ≤ k) (hcount : countWrites r.objectId pre = k) :
    ∃ later : List ElleOp,
      mapGet (build (pre ++ r :: post)).transactions (resolveTx (build pre) r.sesId) []
        = mapGet (build pre).transactions (resolveTx (build pre) r.sesId) []
            ++ ElleOp.ReadOp ((k : Int) - 1) r.objectId (resolveTx (build pre) r.sesId) false
                :: later
      ∧ (okEvent timing j (resolveTx (build pre) r.sesId,
            mapGet (build (pre ++ r :: post)).transactions
              (resolveTx (build pre) r.sesId) [])).value
          = (mapGet (build pre).transactions (resolveTx (build pre) r.sesId) []).map
                (fun op => op.setToOk.toString)
              ++ ("[:r " ++ toString r.objectId ++ " ["
                    ++ " ".intercalate ((List.range k).map (fun n : Nat => toString n))
                    ++ "]]")
                  :: later.map (fun op => op.setToOk.toString)
      ∧ (invokeEvent timing i (resolveTx (build pre) r.sesId,
            mapGet (build (pre ++ r :: post)).transactions
              (resolveTx (build pre) r.sesId) [])).value
          = (mapGet (build pre).transactions (resolveTx (build pre) r.sesId) []).map
                (fun op => op.setToInvoke.toString)
              ++ ("[:r " ++ toString r.objectId ++ " nil]")
                  :: later.map (fun op => op.setToInvoke.toString) := by
  obtain ⟨n, rfl⟩ : ∃ n, k = n + 1 := ⟨k - 1, by omega⟩
  have hsplit := build_split pre post r
  rw [newOps_read _ r hr, versionOf_build, hcount, List.singleton_append] at hsplit
  refine ⟨opsFor (resolveTx (build pre) r.sesId) (step (build pre) r) post, hsplit, ?_, ?_⟩
  · have hclear : ∀ op : ElleOp, op.setToInvoke.setToOk = op.setToOk := by
      intro op
      cases op <;> rfl
    simp only [okEvent, List.map_map, Function.comp_def, hclear]
    rw [hsplit, List.map_append, List.map_cons]
    have hv : ((n + 1 : Nat) : Int) - 1 = (n : Int) := by push_cast; ring
    rw [hv]
    simp only [ElleOp.setToOk, readOp_toString_ok]
  · simp only [invokeEvent]
    rw [hsplit, List.map_append, List.map_cons]
    simp only [ElleOp.setToInvoke]
    rw [readOp_toString_nil _ _ _ _ (Or.inr rfl)]

/-- C2, at a concrete input: a READ on object 7 after two WRITE records on it. -/
theorem C2_read_after_writes_witness :
    ∃ later : List ElleOp,
      mapGet (build ([⟨1, "WRITE", 7⟩, ⟨2, "WRITE", 7⟩] ++ ⟨3, "READ", 7⟩
          :: [⟨3, "WRITE", 7⟩])).transactions
          (resolveTx (build [⟨1, "WRITE", 7⟩, ⟨2, "WRITE", 7⟩]) 3) []
        = mapGet (build [⟨1, "WRITE", 7⟩, ⟨2, "WRITE", 7⟩]).transactions
            (resolveTx (build [⟨1, "WRITE", 7⟩, ⟨2, "WRITE", 7⟩]) 3) []
            ++ ElleOp.ReadOp (((2 : Nat) : Int) - 1) 7
                (resolveTx (build [⟨1, "WRITE", 7⟩, ⟨2, "WRITE", 7⟩]) 3) false
                :: later
      ∧ (okEvent [] 1 (resolveTx (build [⟨1, "WRITE", 7⟩, ⟨2, "WRITE", 7⟩]) 3,
            mapGet (build ([⟨1, "WRITE", 7⟩, ⟨2, "WRITE", 7⟩] ++ ⟨3, "READ", 7⟩
              :: [⟨3, "WRITE", 7⟩])).transactions
              (resolveTx (build [⟨1, "WRITE", 7⟩, ⟨2, "WRITE", 7⟩]) 3) [])).value
          = (mapGet (build [⟨1, "WRITE", 7⟩, ⟨2, "WRITE", 7⟩]).transactions
                (resolveTx (build [⟨1, "WRITE", 7⟩, ⟨2, "WRITE", 7⟩]) 3) []).map
                (fun op => op.setToOk.toString)
              ++ ("[:r " ++ toString (7 : Int) ++ " ["
                    ++ " ".intercalate ((List.range 2).map (fun n : Nat => toString n))
                    ++ "]]")
                  :: later.map (fun op => op.setToOk.toString)
      ∧ (invokeEvent [] 0 (resolveTx (build [⟨1, "WRITE", 7⟩, ⟨2, "WRITE", 7⟩]) 3,
            mapGet (build ([⟨1, "WRITE", 7⟩, ⟨2, "WRITE", 7⟩] ++ ⟨3, "READ", 7⟩
              :: [⟨3, "WRITE", 7⟩])).transactions
              (resolveTx (build [⟨1, "WRITE", 7⟩, ⟨2, "WRITE", 7⟩]) 3) [])).value
          = (mapGet (build [⟨1, "WRITE", 7⟩, ⟨2, "WRITE", 7⟩]).transactions
                (resolveTx (build [⟨1, "WRITE", 7⟩, ⟨2, "WRITE", 7⟩]) 3) []).map
                (fun op => op.setToInvoke.toString)
              ++ ("[:r " ++ toString (7 : Int) ++ " nil]")
                  :: later.map (fun op => op.setToInvoke.toString) :=
  C2_read_after_writes [⟨1, "WRITE", 7⟩, ⟨2, "WRITE", 7⟩] [⟨3, "WRITE", 7⟩] ⟨3, "READ", 7⟩ 2
    [] 0 1 rfl (by decide) (by decide)

/-- C3: a READ record on object `o` with no earlier WRITE record on `o` pushes a
`ReadOp` of stored version `-1`, which stays in the final vector of its
transaction and renders as `[:r o nil]` both in the invoke event and in the ok
event of that transaction. -/
theorem C3_read_unwritten (pre post : List Operation) (r : Operation)
    (timing : Map (Int × Int)) (i j : Int)
    (hr : r.opType = "READ") (hcount : countWrites r.objectId pre = 0) :
    ∃ later : List ElleOp,
      mapGet (build (pre ++ r :: post)).transactions (resolveTx (build pre) r.sesId) []
        = mapGet (build pre).transactions (resolveTx (build pre) r.sesId) []
            ++ ElleOp.ReadOp (-1) r.objectId (resolveTx (build pre) r.sesId) false :: later
      ∧ (invokeEvent timing i (resolveTx (build pre) r.sesId,
            mapGet (build (pre ++ r :: post)).transactions
              (resolveTx (build pre) r.sesId) [])).value
          = (mapGet (build pre).transactions (resolveTx (build pre) r.sesId) []).map
                (fun op => op.setToInvoke.toString)
              ++ ("[:r " ++ toString r.objectId ++ " nil]")
                  :: later.map (fun op => op.setToInvoke.toString)
      ∧ (okEvent timing j (resolveTx (build pre) r.sesId,
            mapGet (build (pre ++ r :: post)).transactions
              (resolveTx (build pre) r.sesId) [])).value
          = (mapGet (build pre).transactions (resolveTx (build pre) r.sesId) []).map
                (fun op => op.setToOk.toString)
              ++ ("[:r " ++ toString r.objectId ++ " nil]")
                  :: later.map (fun op => op.setToOk.toString) := by
  have hsplit := build_split pre post r
  rw [newOps_read _ r hr, versionOf_build, hcount, List.singleton_append] at hsplit
  have hv : ((0 : Nat) : Int) - 1 = -1 := by norm_num
  rw [hv] at hsplit
  refine ⟨opsFor (resolveTx (build pre) r.sesId) (step (build pre) r) post, hsplit, ?_, ?_⟩
  · simp only [invokeEvent]
    rw [hsplit, List.map_append, List.map_cons]
    simp only [ElleOp.setToInvoke]
    rw [readOp_toString_nil _ _ _ _ (Or.inr rfl)]
  · rw [okEvent_value]
    simp only []
    rw [hsplit, List.map_append, List.map_cons]
    simp only [ElleOp.setToOk]
    rw [readOp_toString_nil _ _ _ _ (Or.inl rfl)]

/-- C3, at a concrete input: a READ on object 9, which no record ever writes. -/
theorem C3_read_unwritten_witness :
    ∃ later : List ElleOp,
      mapGet (build ([⟨1, "BEGIN", -1⟩, ⟨1, "WRITE", 7⟩] ++ ⟨1, "READ", 9⟩
          :: [⟨1, "COMMIT", -1⟩])).transactions
          (resolveTx (build [⟨1, "BEGIN", -1⟩, ⟨1, "WRITE", 7⟩]) 1) []
        = mapGet (build [⟨1, "BEGIN", -1⟩, ⟨1, "WRITE", 7⟩]).transactions
            (resolveTx (build [⟨1, "BEGIN", -1⟩, ⟨1, "WRITE", 7⟩]) 1) []
            ++ ElleOp.ReadOp (-1) 9
                (resolveTx (build [⟨1, "BEGIN", -1⟩, ⟨1, "WRITE", 7⟩]) 1) false :: later
      ∧ (invokeEvent [] 0 (resolveTx (build [⟨1, "BEGIN", -1⟩, ⟨1, "WRITE", 7⟩]) 1,
            mapGet (build ([⟨1, "BEGIN", -1⟩, ⟨1, "WRITE", 7⟩] ++ ⟨1, "READ", 9⟩
              :: [⟨1, "COMMIT", -1⟩])).transactions
              (resolveTx (build [⟨1, "BEGIN", -1⟩, ⟨1, "WRITE", 7⟩]) 1) [])).value
          = (mapGet (build [⟨1, "BEGIN", -1⟩, ⟨1, "WRITE", 7⟩]).transactions
                (resolveTx (build [⟨1, "BEGIN", -1⟩, ⟨1, "WRITE", 7⟩]) 1) []).map
                (fun op => op.setToInvoke.toString)
              ++ ("[:r " ++ toString (9 : Int) ++ " nil]")
                  :: later.map (fun op => op.setToInvoke.toString)
      ∧ (okEvent [] 1 (resolveTx (build [⟨1, "BEGIN", -1⟩, ⟨1, "WRITE", 7⟩]) 1,
            mapGet (build ([⟨1, "BEGIN", -1⟩, ⟨1, "WRITE", 7⟩] ++ ⟨1, "READ", 9⟩
              :: [⟨1, "COMMIT", -1⟩])).transactions
              (resolveTx (build [⟨1, "BEGIN", -1⟩, ⟨1, "WRITE", 7⟩]) 1) [])).value
          = (mapGet (build [⟨1, "BEGIN", -1⟩, ⟨1, "WRITE", 7⟩]).transactions
                (resolveTx (build [⟨1, "BEGIN", -1⟩, ⟨1, "WRITE", 7⟩]) 1) []).map
                (fun op => op.setToOk.toString)
              ++ ("[:r " ++ toString (9 : Int) ++ " nil]")
                  :: later.map (fun op => op.setToOk.toString) :=
  C3_read_unwritten [⟨1, "BEGIN", -1⟩, ⟨1, "WRITE", 7⟩] [⟨1, "COMMIT", -1⟩] ⟨1, "READ", 9⟩
    [] 0 1 rfl (by decide)

/-- C4: the clock starts at 0; an iteration adds exactly 1 to it for a BEGIN or a
COMMIT record and leaves it unchanged for any other record; the clock values
stored for the BEGIN and COMMIT records, in processing order, are `0, 1, 2, ...`
(the i-th such record gets `i`), hence strictly increasing and pairwise distinct. -/
theorem C4_clock (operations : List Operation) :
    State.init.currTime = 0
    ∧ (∀ (st : State) (r : Operation),
        (step st r).currTime = if isBeginOrCommit r then st.currTime + 1 else st.currTime)
    ∧ (build operations).currTime = (operations.countP isBeginOrCommit : Nat)
    ∧ assignedClocks State.init operations
        = (List.range (operations.countP isBeginOrCommit)).map (fun i : Nat => (i : Int))
    ∧ (assignedClocks State.init operations).Pairwise (· < ·)
    ∧ (assignedClocks State.init operations).Nodup := by
  have heq : assignedClocks State.init operations
      = (List.range (operations.countP isBeginOrCommit)).map (fun i : Nat => (i : Int)) := by
    rw [assignedClocks_eq]
    apply List.map_congr_left
    intro i _
    show (0 : Int) + (i : Int) = (i : Int)
    ring
  have hpw : (assignedClocks State.init operations).Pairwise (· < ·) := by
    rw [heq, List.pairwise_map]
    exact (List.pairwise_lt_range _).imp (fun h => by exact_mod_cast h)
  refine ⟨rfl, step_currTime, ?_, heq, hpw, ?_⟩
  · unfold build
    rw [run_currTime]
    show (0 : Int) + _ = _
    ring
  · exact hpw.imp (fun h => ne_of_lt h)

/-- C5: after the pass, the vector `transactions[T]` lists, in input order, one op
for each READ or WRITE record that resolved to `T` and nothing else: the kinds
(read or write) and the object ids are those of the records, every op carries
transaction id `T`, and a record that is neither READ nor WRITE (BEGIN, COMMIT)
leaves the map `transactions` unchanged. -/
theorem C5_ops_order (operations : List Operation) (T : Int) :
    (mapGet (build operations).transactions T []).map (fun op => (op.isRead, op.objId))
        = (recordsOf T State.init operations).map
            (fun r => (decide (r.opType = "READ"), r.objectId))
    ∧ (∀ op ∈ mapGet (build operations).transactions T [], op.transactionId = T)
    ∧ ∀ (st : State) (r : Operation), isReadOrWrite r = false →
        (step st r).transactions = st.transactions := by
  have hrun : mapGet (build operations).transactions T [] = opsFor T State.init operations := by
    unfold build
    rw [run_transactions]
    rfl
  refine ⟨?_, ?_, step_transactions_of_not_readOrWrite⟩
  · rw [hrun, opsFor_kinds]
  · rw [hrun]
    exact opsFor_transactionId T State.init operations

/-- C5, at a concrete input: a BEGIN record pushes no op. -/
theorem C5_ops_order_witness :
    isReadOrWrite ⟨1, "BEGIN", -1⟩ = false
    ∧ (step (build [⟨1, "READ", 7⟩]) ⟨1, "BEGIN", -1⟩).transactions
        = (build [⟨1, "READ", 7⟩]).transactions :=
  ⟨by decide,
   (C5_ops_order [] 0).2.2 (build [⟨1, "READ", 7⟩]) ⟨1, "BEGIN", -1⟩ (by decide)⟩

/-- C6, refuted as stated: on `BEGIN 1; COMMIT 1` the transaction of session 1
gets no event at all (the output is empty); and on
`BEGIN 3; READ 3 7; BEGIN 2; READ 2 7; COMMIT 2` the only written event with
`:process 2` is the ok event, the invoke event of transaction 2 being overwritten
by the ok event of transaction 3, which carries the same time. -/
theorem C6_counterexample :
    writtenEvents (build [⟨1, "BEGIN", -1⟩, ⟨1, "COMMIT", -1⟩]).transactions
        (build [⟨1, "BEGIN", -1⟩, ⟨1, "COMMIT", -1⟩]).transactionTime = []
    ∧ mainOutput [⟨1, "BEGIN", -1⟩, ⟨1, "COMMIT", -1⟩] = ""
    ∧ (writtenEvents
          (build [⟨3, "BEGIN", -1⟩, ⟨3, "READ", 7⟩, ⟨2, "BEGIN", -1⟩, ⟨2, "READ", 7⟩,
            ⟨2, "COMMIT", -1⟩]).transactions
          (build [⟨3, "BEGIN", -1⟩, ⟨3, "READ", 7⟩, ⟨2, "BEGIN", -1⟩, ⟨2, "READ", 7⟩,
            ⟨2, "COMMIT", -1⟩]).transactionTime).filter (fun e => decide (e.process = 2))
        = [{ index := 1, isInvoke := false, value := ["[:r 7 nil]"], process := 2,
             time := 2 }] := by
  decide

/-- C6, amended: for every operation list and every transaction id `T` to which
at least one READ or WRITE record resolved, `T` is a key of `transactions`, the
`k`-th in ascending order (`k` the number of entries before it), and the loop of
`writeToFile` generates exactly two events with `:process T`: the invoke event with
index `2k` and then the ok event with index `2k+1`, so the index of the invoke event
is the smaller one.  Every written event with `:process T` is one of these two.
Each of the two is written exactly when no event generated after it carries its
time: the invoke event when its time differs from the time of the ok event and from
the times of the events of the later entries, the ok event when its time differs
from the times of the events of the later entries; when both hold, the written
events with `:process T` are exactly these two.  A transaction id to which no READ
and no WRITE record resolved has no written event. -/
theorem C6_two_events (operations : List Operation) (T : Int)
    (hT : recordsOf T State.init operations ≠ []) :
    ∃ (before : List (Int × List ElleOp)) (ops : List ElleOp)
        (after : List (Int × List ElleOp)),
      (build operations).transactions = before ++ (T, ops) :: after
      ∧ (build operations).transactions[before.length]? = some (T, ops)
      ∧ (genEvents (build operations).transactionTime (build operations).transactions 0).filter
            (fun e => decide (e.process = T))
          = [invokeEvent (build operations).transactionTime (2 * (before.length : Int)) (T, ops),
             okEvent (build operations).transactionTime (2 * (before.length : Int) + 1) (T, ops)]
      ∧ (invokeEvent (build operations).transactionTime (2 * (before.length : Int))
            (T, ops)).isInvoke = true
      ∧ (okEvent (build operations).transactionTime (2 * (before.length : Int) + 1)
            (T, ops)).isInvoke = false
      ∧ (invokeEvent (build operations).transactionTime (2 * (before.length : Int))
            (T, ops)).process = T
      ∧ (okEvent (build operations).transactionTime (2 * (before.length : Int) + 1)
            (T, ops)).process = T
      ∧ (invokeEvent (build operations).transactionTime (2 * (before.length : Int))
            (T, ops)).index
          < (okEvent (build operations).transactionTime (2 * (before.length : Int) + 1)
              (T, ops)).index
      ∧ (∀ e ∈ writtenEvents (build operations).transactions (build operations).transactionTime,
          e.process = T →
            e = invokeEvent (build operations).transactionTime (2 * (before.length : Int))
                  (T, ops)
              ∨ e = okEvent (build operations).transactionTime (2 * (before.length : Int) + 1)
                  (T, ops))
      ∧ (invokeEvent (build operations).transactionTime (2 * (before.length : Int)) (T, ops)
            ∈ writtenEvents (build operations).transactions (build operations).transactionTime
          ↔ (invokeEvent (build operations).transactionTime (2 * (before.length : Int))
                (T, ops)).time
              ≠ (okEvent (build operations).transactionTime (2 * (before.length : Int) + 1)
                  (T, ops)).time
            ∧ (invokeEvent (build operations).transactionTime (2 * (before.length : Int))
                (T, ops)).time
              ∉ (genEvents (build operations).transactionTime after
                  (2 * (before.length : Int) + 2)).map Event.time)
      ∧ (okEvent (build operations).transactionTime (2 * (before.length : Int) + 1) (T, ops)
            ∈ writtenEvents (build operations).transactions (build operations).transactionTime
          ↔ (okEvent (build operations).transactionTime (2 * (before.length : Int) + 1)
                (T, ops)).time
              ∉ (genEvents (build operations).transactionTime after
                  (2 * (before.length : Int) + 2)).map Event.time)
      ∧ ((invokeEvent (build operations).transactionTime (2 * (before.length : Int))
                (T, ops)).time
              ≠ (okEvent (build operations).transactionTime (2 * (before.length : Int) + 1)
                  (T, ops)).time →
          (invokeEvent (build operations).transactionTime (2 * (before.length : Int))
                (T, ops)).time
              ∉ (genEvents (build operations).transactionTime after
                  (2 * (before.length : Int) + 2)).map Event.time →
          (okEvent (build operations).transactionTime (2 * (before.length : Int) + 1)
                (T, ops)).time
              ∉ (genEvents (build operations).transactionTime after
                  (2 * (before.length : Int) + 2)).map Event.time →
          ((writtenEvents (build operations).transactions
              (build operations).transactionTime).filter
                (fun e => decide (e.process = T))).Perm
            [invokeEvent (build operations).transactionTime (2 * (before.length : Int)) (T, ops),
             okEvent (build operations).transactionTime (2 * (before.length : Int) + 1)
               (T, ops)])
      ∧ ∀ T' : Int, recordsOf T' State.init operations = [] →
          ∀ e ∈ writtenEvents (build operations).transactions
              (build operations).transactionTime, e.process ≠ T' := by
  have hkey : T ∈ (build operations).transactions.map Prod.fst := (build_keys operations T).mpr hT
  have hnd : ((build operations).transactions.map Prod.fst).Nodup :=
    (keysAscending_build operations).imp (fun h => ne_of_lt h)
  obtain ⟨entry, hentry, hfst⟩ := List.mem_map.mp hkey
  obtain ⟨before, after, hsplit⟩ := List.append_of_mem hentry
  obtain ⟨T0, ops⟩ := entry
  simp only at hfst
  subst hfst
  have hgen := genEvents_middle (build operations).transactionTime before after (T0, ops)
  rw [← hsplit] at hgen
  rw [hsplit, List.map_append, List.map_cons, List.nodup_append, List.nodup_cons] at hnd
  have hbefore : T0 ∉ before.map Prod.fst := by
    intro hmem
    exact hnd.2.2 hmem (List.mem_cons_self _ _)
  have hafter : T0 ∉ after.map Prod.fst := hnd.2.1.1
  have hf : (genEvents (build operations).transactionTime
        (build operations).transactions 0).filter (fun e => decide (e.process = T0))
      = [invokeEvent (build operations).transactionTime (2 * (before.length : Int)) (T0, ops),
         okEvent (build operations).transactionTime (2 * (before.length : Int) + 1)
           (T0, ops)] := by
    rw [hgen, List.filter_append, List.filter_cons, List.filter_cons,
      genEvents_filter_of_not_mem _ before 0 T0 hbefore,
      genEvents_filter_of_not_mem _ after _ T0 hafter]
    simp [invokeEvent, okEvent]
  have hmem : ∀ e, e ∈ writtenEvents (build operations).transactions
        (build operations).transactionTime → e.process = T0 →
        e ∈ [invokeEvent (build operations).transactionTime (2 * (before.length : Int))
               (T0, ops),
             okEvent (build operations).transactionTime (2 * (before.length : Int) + 1)
               (T0, ops)] := by
    intro e he hp
    rw [← hf, List.mem_filter]
    exact ⟨mem_genEvents_of_written _ _ e he, by simpa using hp⟩
  have hinv := written_iff_last (build operations).transactions
    (build operations).transactionTime
    (genEvents (build operations).transactionTime before 0)
    (okEvent (build operations).transactionTime (2 * (before.length : Int) + 1) (T0, ops)
      :: genEvents (build operations).transactionTime after (2 * (before.length : Int) + 2))
    (invokeEvent (build operations).transactionTime (2 * (before.length : Int)) (T0, ops))
    hgen
  rw [List.map_cons, List.mem_cons, not_or] at hinv
  have hok := written_iff_last (build operations).transactions
    (build operations).transactionTime
    (genEvents (build operations).transactionTime before 0
      ++ [invokeEvent (build operations).transactionTime (2 * (before.length : Int)) (T0, ops)])
    (genEvents (build operations).transactionTime after (2 * (before.length : Int) + 2))
    (okEvent (build operations).transactionTime (2 * (before.length : Int) + 1) (T0, ops))
    (by rw [hgen]; simp)
  refine ⟨before, ops, after, hsplit,
    by rw [hsplit, List.getElem?_append_right (le_refl _)]; simp,
    hf, rfl, rfl, rfl, rfl, ?_, ?_,
    hinv, hok, ?_, fun T' hT' => written_process_ne_of_no_records operations T' hT'⟩
  · show 2 * (before.length : Int) < 2 * (before.length : Int) + 1
    omega
  · intro e he hp
    have := hmem e he hp
    simpa using this
  · intro h1 h2 h3
    rw [List.perm_ext_iff_of_nodup ((writtenEvents_nodup _ _).filter _)]
    · intro e
      constructor
      · intro he
        rw [List.mem_filter] at he
        exact hmem e he.1 (by simpa using he.2)
      · intro he
        rw [List.mem_cons, List.mem_singleton] at he
        rw [List.mem_filter]
        rcases he with he | he
        · rw [he]
          exact ⟨hinv.mpr ⟨h1, h2⟩, by simp [invokeEvent]⟩
        · rw [he]
          exact ⟨hok.mpr h3, by simp [okEvent]⟩
    · simp [invokeEvent, okEvent]

/-- C6 amended, at a concrete input: in `collisionLog` the ok event of transaction
3 overwrites the invoke event of transaction 2, so the generated times are not
pairwise different; transaction 4 collides with nothing and both its events are
written, with indices 4 and 5. -/
theorem C6_two_events_witness :
    recordsOf 4 State.init collisionLog ≠ []
    ∧ (∃ (before : List (Int × List ElleOp)) (ops : List ElleOp)
        (after : List (Int × List ElleOp)),
      (build collisionLog).transactions = before ++ (4, ops) :: after
      ∧ (build collisionLog).transactions[before.length]? = some (4, ops)
      ∧ (genEvents (build collisionLog).transactionTime (build collisionLog).transactions 0).filter
            (fun e => decide (e.process = 4))
          = [invokeEvent (build collisionLog).transactionTime (2 * (before.length : Int)) (4, ops),
             okEvent (build collisionLog).transactionTime (2 * (before.length : Int) + 1) (4, ops)]
      ∧ (invokeEvent (build collisionLog).transactionTime (2 * (before.length : Int))
            (4, ops)).isInvoke = true
      ∧ (okEvent (build collisionLog).transactionTime (2 * (before.length : Int) + 1)
            (4, ops)).isInvoke = false
      ∧ (invokeEvent (build collisionLog).transactionTime (2 * (before.length : Int))
            (4, ops)).process = 4
      ∧ (okEvent (build collisionLog).transactionTime (2 * (before.length : Int) + 1)
            (4, ops)).process = 4
      ∧ (invokeEvent (build collisionLog).transactionTime (2 * (before.length : Int))
            (4, ops)).index
          < (okEvent (build collisionLog).transactionTime (2 * (before.length : Int) + 1)
              (4, ops)).index
      ∧ (∀ e ∈ writtenEvents (build collisionLog).transactions (build collisionLog).transactionTime,
          e.process = 4 →
            e = invokeEvent (build collisionLog).transactionTime (2 * (before.length : Int))
                  (4, ops)
              ∨ e = okEvent (build collisionLog).transactionTime (2 * (before.length : Int) + 1)
                  (4, ops))
      ∧ (invokeEvent (build collisionLog).transactionTime (2 * (before.length : Int)) (4, ops)
            ∈ writtenEvents (build collisionLog).transactions (build collisionLog).transactionTime
          ↔ (invokeEvent (build collisionLog).transactionTime (2 * (before.length : Int))
                (4, ops)).time
              ≠ (okEvent (build collisionLog).transactionTime (2 * (before.length : Int) + 1)
                  (4, ops)).time
            ∧ (invokeEvent (build collisionLog).transactionTime (2 * (before.length : Int))
                (4, ops)).time
              ∉ (genEvents (build collisionLog).transactionTime after
                  (2 * (before.length : Int) + 2)).map Event.time)
      ∧ (okEvent (build collisionLog).transactionTime (2 * (before.length : Int) + 1) (4, ops)
            ∈ writtenEvents (build collisionLog).transactions (build collisionLog).transactionTime
          ↔ (okEvent (build collisionLog).transactionTime (2 * (before.length : Int) + 1)
                (4, ops)).time
              ∉ (genEvents (build collisionLog).transactionTime after
                  (2 * (before.length : Int) + 2)).map Event.time)
      ∧ ((invokeEvent (build collisionLog).transactionTime (2 * (before.length : Int))
                (4, ops)).time
              ≠ (okEvent (build collisionLog).transactionTime (2 * (before.length : Int) + 1)
                  (4, ops)).time →
          (invokeEvent (build collisionLog).transactionTime (2 * (before.length : Int))
                (4, ops)).time
              ∉ (genEvents (build collisionLog).transactionTime after
                  (2 * (before.length : Int) + 2)).map Event.time →
          (okEvent (build collisionLog).transactionTime (2 * (before.length : Int) + 1)
                (4, ops)).time
              ∉ (genEvents (build collisionLog).transactionTime after
                  (2 * (before.length : Int) + 2)).map Event.time →
          ((writtenEvents (build collisionLog).transactions
              (build collisionLog).transactionTime).filter
                (fun e => decide (e.process = 4))).Perm
            [invokeEvent (build collisionLog).transactionTime (2 * (before.length : Int)) (4, ops),
             okEvent (build collisionLog).transactionTime (2 * (before.length : Int) + 1)
               (4, ops)])
      ∧ ∀ T' : Int, recordsOf T' State.init collisionLog = [] →
          ∀ e ∈ writtenEvents (build collisionLog).transactions
              (build collisionLog).transactionTime, e.process ≠ T')
    ∧ ¬ ((genEvents (build collisionLog).transactionTime
          (build collisionLog).transactions 0).map Event.time).Nodup
    ∧ (writtenEvents (build collisionLog).transactions
          (build collisionLog).transactionTime).filter (fun e => decide (e.process = 4))
        = [{ index := 4, isInvoke := true, value := ["[:append 7 0]"], process := 4,
             time := 3 },
           { index := 5, isInvoke := false, value := ["[:append 7 0]"], process := 4,
             time := 4 }] :=
  ⟨by decide, C6_two_events collisionLog 4 (by decide), by decide, by decide⟩

/-- C7: for arbitrary `transactions` and `timing`, the `:time` values of the lines
written by `writeToFile`, read top to bottom, are non-decreasing (they are even
strictly increasing, `elleOut` being keyed by time); the file is the
concatenation of the lines of these events. -/
theorem C7_times_nondecreasing (transactions : Map (List ElleOp))
    (timing : Map (Int × Int)) :
    ((writtenEvents transactions timing).map Event.time).Pairwise (· ≤ ·)
    ∧ ((writtenEvents transactions timing).map Event.time).Pairwise (· < ·)
    ∧ writeToFile transactions timing
        = String.join ((writtenEvents transactions timing).map Event.line) :=
  ⟨(writtenEvents_times_ascending transactions timing).imp (fun h => le_of_lt h),
   writtenEvents_times_ascending transactions timing, rfl⟩

/-- C8: for distinct session ids `S1` and `S2`, on the scenario
`BEGIN S1; WRITE S1 7; COMMIT S1; BEGIN S2; READ S2 7; COMMIT S2` the builder gives
timing `(0, 1)` to transaction `S1` and `(2, 3)` to transaction `S2`; the single op
of `S1` renders `[:append 7 0]` in the invoke and in the ok event, the single op of
`S2` renders `[:r 7 nil]` in the invoke event and `[:r 7 [0]]` in the ok event; and
exactly four lines are written, with times `0, 1, 2, 3` from top to bottom. -/
theorem C8_scenario (S1 S2 : Int) (h : S1 ≠ S2) :
    mapFind (build (scenario S1 S2)).transactionTime S1 = some (0, 1)
    ∧ mapFind (build (scenario S1 S2)).transactionTime S2 = some (2, 3)
    ∧ mapFind (build (scenario S1 S2)).transactions S1 = some [ElleOp.WriteOp 0 7 S1]
    ∧ mapFind (build (scenario S1 S2)).transactions S2 = some [ElleOp.ReadOp 0 7 S2 false]
    ∧ (build (scenario S1 S2)).transactions.length = 2
    ∧ writtenEvents (build (scenario S1 S2)).transactions
          (build (scenario S1 S2)).transactionTime
        = [{ index := if S1 < S2 then 0 else 2, isInvoke := true,
             value := ["[:append 7 0]"], process := S1, time := 0 },
           { index := if S1 < S2 then 1 else 3, isInvoke := false,
             value := ["[:append 7 0]"], process := S1, time := 1 },
           { index := if S1 < S2 then 2 else 0, isInvoke := true,
             value := ["[:r 7 nil]"], process := S2, time := 2 },
           { index := if S1 < S2 then 3 else 1, isInvoke := false,
             value := ["[:r 7 [0]]"], process := S2, time := 3 }]
    ∧ (writtenEvents (build (scenario S1 S2)).transactions
          (build (scenario S1 S2)).transactionTime).length = 4
    ∧ (writtenEvents (build (scenario S1 S2)).transactions
          (build (scenario S1 S2)).transactionTime).map Event.time = [0, 1, 2, 3] := by
  have h2 : ¬ S2 = S1 := fun e => h e.symm
  have hw : writtenEvents (build (scenario S1 S2)).transactions
          (build (scenario S1 S2)).transactionTime
        = [{ index := if S1 < S2 then 0 else 2, isInvoke := true,
             value := ["[:append 7 0]"], process := S1, time := 0 },
           { index := if S1 < S2 then 1 else 3, isInvoke := false,
             value := ["[:append 7 0]"], process := S1, time := 1 },
           { index := if S1 < S2 then 2 else 0, isInvoke := true,
             value := ["[:r 7 nil]"], process := S2, time := 2 },
           { index := if S1 < S2 then 3 else 1, isInvoke := false,
             value := ["[:r 7 [0]]"], process := S2, time := 3 }] := by
    rcases lt_or_gt_of_ne h with hlt | hgt
    · rw [build_scenario_lt S1 S2 hlt]
      simp [writtenEvents, elleOut, emitLoop, invokeEvent, okEvent, mapGet, mapFind, mapSet,
        ElleOp.setToInvoke, ElleOp.setToOk, writeOp_toString_scenario,
        readOp_toString_scenario_invoke, readOp_toString_scenario_ok, h, h2, hlt]
    · have hn : ¬ S1 < S2 := by omega
      rw [build_scenario_gt S1 S2 hgt]
      simp [writtenEvents, elleOut, emitLoop, invokeEvent, okEvent, mapGet, mapFind, mapSet,
        ElleOp.setToInvoke, ElleOp.setToOk, writeOp_toString_scenario,
        readOp_toString_scenario_invoke, readOp_toString_scenario_ok, h, h2, hn]
  refine ⟨?_, ?_, ?_, ?_, ?_, hw, ?_, ?_⟩
  · rcases lt_or_gt_of_ne h with hlt | hgt
    · rw [build_scenario_lt S1 S2 hlt]; simp [mapFind]
    · rw [build_scenario_gt S1 S2 hgt]; simp [mapFind, h2]
  · rcases lt_or_gt_of_ne h with hlt | hgt
    · rw [build_scenario_lt S1 S2 hlt]; simp [mapFind, h]
    · rw [build_scenario_gt S1 S2 hgt]; simp [mapFind]
  · rcases lt_or_gt_of_ne h with hlt | hgt
    · rw [build_scenario_lt S1 S2 hlt]; simp [mapFind]
    · rw [build_scenario_gt S1 S2 hgt]; simp [mapFind, h2]
  · rcases lt_or_gt_of_ne h with hlt | hgt
    · rw [build_scenario_lt S1 S2 hlt]; simp [mapFind, h]
    · rw [build_scenario_gt S1 S2 hgt]; simp [mapFind]
  · rcases lt_or_gt_of_ne h with hlt | hgt
    · rw [build_scenario_lt S1 S2 hlt]; rfl
    · rw [build_scenario_gt S1 S2 hgt]; rfl
  · rw [hw]; rfl
  · rw [hw]; rfl

/-- C8, at the concrete sessions 5 and 3 (the second session has the smaller id):
the timings, and the text of the file. -/
theorem C8_scenario_witness :
    (5 : Int) ≠ 3
    ∧ mapFind (build (scenario 5 3)).transactionTime 5 = some (0, 1)
    ∧ mapFind (build (scenario 5 3)).transactionTime 3 = some (2, 3)
    ∧ mainOutput (scenario 5 3)
        = "\x7b:index 2 :type :invoke, :value [[:append 7 0] ], :process 5, :time 0\x7d\n"
          ++ "\x7b:index 3 :type :ok, :value [[:append 7 0] ], :process 5, :time 1\x7d\n"
          ++ "\x7b:index 0 :type :invoke, :value [[:r 7 nil] ], :process 3, :time 2\x7d\n"
          ++ "\x7b:index 1 :type :ok, :value [[:r 7 [0]] ], :process 3, :time 3\x7d\n" :=
  ⟨by decide, (C8_scenario 5 3 (by decide)).1, (C8_scenario 5 3 (by decide)).2.1, by rfl⟩

/-- C9, refuted as stated: on `BEGIN 1; WRITE 1 7; COMMIT 1` the invoke line built
with index 0 is `{:index 0 :type :invoke, :value [[:append 7 0] ], :process 1, :time 0}`
followed by a newline: a space stands between the last op and the closing bracket,
and the bracket is followed by comma, space.  It differs from the line in the format
of the specification, with or without the newline; so does the ok line. -/
theorem C9_counterexample :
    (invokeEvent (build [⟨1, "BEGIN", -1⟩, ⟨1, "WRITE", 7⟩, ⟨1, "COMMIT", -1⟩]).transactionTime
        0 (1, [ElleOp.WriteOp 0 7 1])).line
      = "\x7b:index 0 :type :invoke, :value [[:append 7 0] ], :process 1, :time 0\x7d\n"
    ∧ specEventLine 0 true [(ElleOp.WriteOp 0 7 1).setToInvoke.toString] 1 0
      = "\x7b:index 0 :type :invoke, :value [[:append 7 0]] , :process 1, :time 0\x7d"
    ∧ (invokeEvent (build [⟨1, "BEGIN", -1⟩, ⟨1, "WRITE", 7⟩, ⟨1, "COMMIT", -1⟩]).transactionTime
        0 (1, [ElleOp.WriteOp 0 7 1])).line
      ≠ specEventLine 0 true [(ElleOp.WriteOp 0 7 1).setToInvoke.toString] 1 0
    ∧ (invokeEvent (build [⟨1, "BEGIN", -1⟩, ⟨1, "WRITE", 7⟩, ⟨1, "COMMIT", -1⟩]).transactionTime
        0 (1, [ElleOp.WriteOp 0 7 1])).line
      ≠ specEventLine 0 true [(ElleOp.WriteOp 0 7 1).setToInvoke.toString] 1 0 ++ "\n"
    ∧ (okEvent (build [⟨1, "BEGIN", -1⟩, ⟨1, "WRITE", 7⟩, ⟨1, "COMMIT", -1⟩]).transactionTime
        1 (1, [ElleOp.WriteOp 0 7 1])).line
      ≠ specEventLine 1 false [(ElleOp.WriteOp 0 7 1).setToOk.toString] 1 1 ++ "\n"
    ∧ mainOutput [⟨1, "BEGIN", -1⟩, ⟨1, "WRITE", 7⟩, ⟨1, "COMMIT", -1⟩]
      = "\x7b:index 0 :type :invoke, :value [[:append 7 0] ], :process 1, :time 0\x7d\n"
        ++ "\x7b:index 1 :type :ok, :value [[:append 7 0] ], :process 1, :time 1\x7d\n" := by
  decide

/-- C9, amended: for every transaction `(p, ops)`, timing map and index `i`, the
invoke line built by `writeToFile` is `{:index i :type :invoke, :value [`, then every
op rendered in invoke mode and followed by one space, then `], :process p, :time b}`
and a newline, with `b` the begin time of `p`; the ok line is the same with `:ok`, the
ops rendered in ok mode and the commit time of `p`.  Every written line is the line
of such an event of an entry of `transactions`. -/
theorem C9_event_line (transactions : Map (List ElleOp)) (timing : Map (Int × Int))
    (i : Int) (tx : Int × List ElleOp) :
    (invokeEvent timing i tx).line
        = "\x7b:index " ++ toString i ++ " :type :invoke, :value ["
            ++ String.join (tx.2.map (fun op => op.setToInvoke.toString ++ " "))
            ++ "], :process " ++ toString tx.1
            ++ ", :time " ++ toString (mapGet timing tx.1 (0, 0)).1 ++ "\x7d\n"
    ∧ (okEvent timing i tx).line
        = "\x7b:index " ++ toString i ++ " :type :ok, :value ["
            ++ String.join (tx.2.map (fun op => op.setToOk.toString ++ " "))
            ++ "], :process " ++ toString tx.1
            ++ ", :time " ++ toString (mapGet timing tx.1 (0, 0)).2 ++ "\x7d\n"
    ∧ writeToFile transactions timing
        = String.join ((writtenEvents transactions timing).map Event.line)
    ∧ ∀ e ∈ writtenEvents transactions timing,
        ∃ (j : Int) (entry : Int × List ElleOp), entry ∈ transactions ∧
          (e = invokeEvent timing j entry ∨ e = okEvent timing j entry) := by
  refine ⟨?_, ?_, rfl, ?_⟩
  · apply String.ext
    simp [Event.line, invokeEvent, List.map_map, Function.comp_def]
  · apply String.ext
    simp [Event.line, okEvent, List.map_map, Function.comp_def, setToOk_setToInvoke]
  · intro e he
    have hg := mem_genEvents_of_written transactions timing e he
    exact mem_genEvents timing transactions 0 e hg

/-- C10, the failing input: session 0 does `BEGIN; WRITE 7; COMMIT` and begins
again.  The COMMIT resolves to transaction id 0 and the next record of session 0
resolves to transaction id 0 as well, so the second BEGIN starts no new
transaction id: both writes end in the one vector `transactions[0]`. -/
theorem C10_session_zero_reuses_id :
    resolveTx (build [⟨0, "BEGIN", -1⟩, ⟨0, "WRITE", 7⟩]) 0 = 0
    ∧ resolveTx (build [⟨0, "BEGIN", -1⟩, ⟨0, "WRITE", 7⟩, ⟨0, "COMMIT", -1⟩]) 0 = 0
    ∧ (build [⟨0, "BEGIN", -1⟩, ⟨0, "WRITE", 7⟩, ⟨0, "COMMIT", -1⟩,
          ⟨0, "BEGIN", -1⟩, ⟨0, "WRITE", 8⟩, ⟨0, "COMMIT", -1⟩]).transactions
        = [(0, [ElleOp.WriteOp 0 7 0, ElleOp.WriteOp 0 8 0])] := by
  decide

/-- C11: `parseOpLog` pushes no record for a line in which the sentinel does not
occur at two different positions, nor for a line whose content has a second token
that is none of BEGIN, WRITE, READ, COMMIT (or has no second token); the parse of a
line is a total function, and a line without record leaves the records of the
other lines as they are. -/
theorem C11_dropped_lines (line : String) :
    ((¬ ∃ i j : Nat, i ≠ j ∧ occursAt line.toList i ∧ occursAt line.toList j) →
        parseLine line = none)
    ∧ (∀ content : List Char, lineContent line.toList = some content →
        (∀ t, (tokens content)[1]? = some t → String.mk t ∉ keywords) →
          parseLine line = none)
    ∧ (parseLine line = none →
        ∀ l1 l2 : List String, parseOpLog (l1 ++ line :: l2) = parseOpLog (l1 ++ l2)) := by
  refine ⟨?_, ?_, ?_⟩
  · intro h
    exact parseLine_of_no_content line (lineContent_none_of_no_two line.toList h)
  · intro content hc h
    exact parseLine_none_of_second_token line content hc h
  · intro h l1 l2
    exact parseOpLog_drop_line l1 l2 line h

/-- C11, at a concrete input: a line whose second token is `PING`, between two
recognized lines. -/
theorem C11_dropped_lines_witness :
    (lineContent "$_$_$ PING ses 1 $_$_$".toList = some "$_$ PING ses 1 ".toList
      ∧ ∀ t, (tokens "$_$ PING ses 1 ".toList)[1]? = some t → String.mk t ∉ keywords)
    ∧ parseLine "$_$_$ PING ses 1 $_$_$" = none
    ∧ parseOpLog (["$_$_$ BEGIN ses 1 $_$_$"] ++ "$_$_$ PING ses 1 $_$_$"
          :: ["$_$_$ COMMIT ses 1 $_$_$"])
        = parseOpLog (["$_$_$ BEGIN ses 1 $_$_$"] ++ ["$_$_$ COMMIT ses 1 $_$_$"]) :=
  ⟨⟨by decide, by decide⟩,
   (C11_dropped_lines "$_$_$ PING ses 1 $_$_$").2.1 "$_$ PING ses 1 ".toList (by decide)
     (by decide),
   (C11_dropped_lines "$_$_$ PING ses 1 $_$_$").2.2 (by decide) _ _⟩

/-- C12, refuted as stated: in `$_$_$ BEGIN ses 9223372036854775808 $_$_$` the
content tokenizes as four tokens with `BEGIN` second and the decimal integer
9223372036854775808 fourth, yet the record gets `sesId = 9223372036854775807`, the
greatest `long long int`; an object id above the range of `int` is stored as
2147483647; and after a session id out of range the object id is not read at all. -/
theorem C12_counterexample :
    lineContent "$_$_$ BEGIN ses 9223372036854775808 $_$_$".toList
      = some "$_$ BEGIN ses 9223372036854775808 ".toList
    ∧ tokens "$_$ BEGIN ses 9223372036854775808 ".toList
      = ["$_$".toList, "BEGIN".toList, "ses".toList, "9223372036854775808".toList]
    ∧ isDecimal "9223372036854775808".toList = true
    ∧ decimalValue "9223372036854775808".toList = 9223372036854775808
    ∧ parseLine "$_$_$ BEGIN ses 9223372036854775808 $_$_$"
      = some { sesId := 9223372036854775807, opType := "BEGIN", objectId := -1 }
    ∧ parseLine "$_$_$ READ ses 1 obj 2147483648 $_$_$"
      = some { sesId := 1, opType := "READ", objectId := 2147483647 }
    ∧ parseLine "$_$_$ READ ses 9223372036854775808 obj 4 $_$_$"
      = some { sesId := 9223372036854775807, opType := "READ", objectId := -1 } := by
  decide

/-- C12, amended: for a line whose content (the text from position `start + 2`,
`start` being the first position of the sentinel, up to the last position of the
sentinel) tokenizes as `t0 t1 t2 t3 ...` with `t3` a decimal integer in the range of
`long long int`, the parse yields one record with `opType = t1`, `sesId = t3` and
`objectId = -1` when `t1` is BEGIN or COMMIT, and, when `t1` is WRITE or READ and the
tokens go on with `t4 t5` where `t5` is a decimal integer in the range of `int`, one
record with `opType = t1`, `sesId = t3`, `objectId = t5`.  The vector lists the
records of the lines in the order of the lines. -/
theorem C12_parse_line (line : String) (content t0 t1 t2 t3 : List Char)
    (rest : List (List Char)) (lines : List String)
    (hc : lineContent line.toList = some content)
    (htok : tokens content = t0 :: t1 :: t2 :: t3 :: rest)
    (hd3 : isDecimal t3 = true) (hlo3 : llongMin ≤ decimalValue t3)
    (hhi3 : decimalValue t3 ≤ llongMax) :
    (∃ start last : Nat,
      strFind sentinel line.toList = some start ∧ strRfind sentinel line.toList = some last
        ∧ start + 2 ≤ last
        ∧ content = (line.toList.drop (start + 2)).take (last - (start + 2)))
    ∧ (String.mk t1 = "BEGIN" ∨ String.mk t1 = "COMMIT" →
        parseLine line
          = some { sesId := decimalValue t3, opType := String.mk t1, objectId := -1 })
    ∧ (String.mk t1 = "WRITE" ∨ String.mk t1 = "READ" →
        ∀ (t4 t5 : List Char) (rest' : List (List Char)), rest = t4 :: t5 :: rest' →
          isDecimal t5 = true → intMin ≤ decimalValue t5 → decimalValue t5 ≤ intMax →
            parseLine line
              = some { sesId := decimalValue t3, opType := String.mk t1,
                       objectId := decimalValue t5 })
    ∧ parseOpLog lines = lines.filterMap parseLine := by
  refine ⟨lineContent_spec line.toList content hc, ?_, ?_, parseOpLog_eq_filterMap lines⟩
  · intro hkey
    exact parseLine_begin_commit line content t0 t1 t2 t3 rest hc htok hkey hd3 hlo3 hhi3
  · intro hkey t4 t5 rest' hrest hd5 hlo5 hhi5
    rw [hrest] at htok
    exact parseLine_read_write line content t0 t1 t2 t3 t4 t5 rest' hc htok hkey hd3 hlo3 hhi3
      hd5 hlo5 hhi5

/-- C12 amended, at a concrete input: a WRITE line of session 12 on object 7. -/
theorem C12_parse_line_witness :
    (lineContent "ts $_$_$ WRITE ses 12 obj 7 $_$_$ end".toList
        = some "$_$ WRITE ses 12 obj 7 ".toList
      ∧ tokens "$_$ WRITE ses 12 obj 7 ".toList
        = "$_$".toList :: "WRITE".toList :: "ses".toList :: "12".toList
            :: ["obj".toList, "7".toList]
      ∧ isDecimal "12".toList = true ∧ llongMin ≤ decimalValue "12".toList
      ∧ decimalValue "12".toList ≤ llongMax ∧ isDecimal "7".toList = true
      ∧ intMin ≤ decimalValue "7".toList ∧ decimalValue "7".toList ≤ intMax)
    ∧ parseLine "ts $_$_$ WRITE ses 12 obj 7 $_$_$ end"
      = some { sesId := decimalValue "12".toList, opType := String.mk "WRITE".toList,
               objectId := decimalValue "7".toList } :=
  ⟨by decide,
   (C12_parse_line "ts $_$_$ WRITE ses 12 obj 7 $_$_$ end" "$_$ WRITE ses 12 obj 7 ".toList
      "$_$".toList "WRITE".toList "ses".toList "12".toList ["obj".toList, "7".toList] []
      (by decide) (by decide) (by decide) (by decide) (by decide)).2.2.1 (Or.inl (by decide))
      "obj".toList "7".toList [] rfl (by decide) (by decide) (by decide)⟩

/-- C13: when no line of the input is recognized, the operation list is empty,
the builder leaves `transactions` and `transactionTime` empty, `writeToFile` writes
no event line (the output is empty), and `main`, called with its two arguments,
returns 0. -/
theorem C13_empty_input (argc : Nat) (lines : List String) (hargc : 3 ≤ argc)
    (hnone : ∀ line ∈ lines, parseLine line = none) :
    parseOpLog lines = []
    ∧ (build (parseOpLog lines)).transactions = []
    ∧ (build (parseOpLog lines)).transactionTime = []
    ∧ writtenEvents (build (parseOpLog lines)).transactions
        (build (parseOpLog lines)).transactionTime = []
    ∧ mainOutput (parseOpLog lines) = ""
    ∧ main argc lines = (0, some "") := by
  have h0 : parseOpLog lines = [] := parseOpLog_eq_nil lines hnone
  have hlt : ¬ argc < 3 := by omega
  refine ⟨h0, ?_, ?_, ?_, ?_, ?_⟩
  · rw [h0]; rfl
  · rw [h0]; rfl
  · rw [h0]; rfl
  · rw [h0]; rfl
  · unfold main
    rw [if_neg hlt, h0]
    rfl

/-- C13, at a concrete input: two lines without a recognized operation. -/
theorem C13_empty_input_witness :
    (3 ≤ 3 ∧ ∀ line ∈ ["no sentinel here", "$_$_$ PING ses 1 $_$_$"], parseLine line = none)
    ∧ main 3 ["no sentinel here", "$_$_$ PING ses 1 $_$_$"] = (0, some "") :=
  ⟨⟨by decide, by decide⟩,
   (C13_empty_input 3 ["no sentinel here", "$_$_$ PING ses 1 $_$_$"] (by decide)
     (by decide)).2.2.2.2.2⟩

/-- C14, refuted as stated: session 9223372036854775807, the greatest
`long long int`, which the parser delivers, does BEGIN, WRITE, COMMIT.  One COMMIT
precedes its next record, and that record resolves to transaction id `-2`, not to
`9223372036854775807 * (1 + 1)`: the addition of line 181 is a 64-bit addition.  The
second transaction of the session is stored under the key `-2`. -/
theorem C14_counterexample :
    parseLine "$_$_$ COMMIT ses 9223372036854775807 $_$_$"
      = some { sesId := 9223372036854775807, opType := "COMMIT", objectId := -1 }
    ∧ countCommits 9223372036854775807
        [⟨9223372036854775807, "BEGIN", -1⟩, ⟨9223372036854775807, "WRITE", 7⟩,
          ⟨9223372036854775807, "COMMIT", -1⟩] = 1
    ∧ resolveTx
        (build [⟨9223372036854775807, "BEGIN", -1⟩, ⟨9223372036854775807, "WRITE", 7⟩,
          ⟨9223372036854775807, "COMMIT", -1⟩]) 9223372036854775807 = -2
    ∧ resolveTx
        (build [⟨9223372036854775807, "BEGIN", -1⟩, ⟨9223372036854775807, "WRITE", 7⟩,
          ⟨9223372036854775807, "COMMIT", -1⟩]) 9223372036854775807
        ≠ 9223372036854775807 * (1 + ((1 : Nat) : Int))
    ∧ (build [⟨9223372036854775807, "BEGIN", -1⟩, ⟨9223372036854775807, "WRITE", 7⟩,
          ⟨9223372036854775807, "COMMIT", -1⟩, ⟨9223372036854775807, "BEGIN", -1⟩,
          ⟨9223372036854775807, "WRITE", 8⟩, ⟨9223372036854775807, "COMMIT", -1⟩]).transactions
        = [(-2, [ElleOp.WriteOp 0 8 (-2)]),
           (9223372036854775807, [ElleOp.WriteOp 0 7 9223372036854775807])] := by
  decide

/-- C14, amended: a record of a session `s` in the range of `long long int`
resolves to transaction id `s * (1 + number of COMMIT records of session s before
it)` reduced to the 64 bits of a `long long int`, hence to that product itself
whenever the product lies in the range of `long long int`, wherever the BEGIN
records stand; the first record of a session resolves to `s`, whatever its type,
and every record of session 0 resolves to transaction id 0. -/
theorem C14_resolution (pre : List Operation) (s : Int) (hlo : llongMin ≤ s)
    (hhi : s ≤ llongMax) :
    resolveTx (build pre) s = wrapLongLong (s * (1 + (countCommits s pre : Nat)))
    ∧ (llongMin ≤ s * (1 + (countCommits s pre : Nat)) →
        s * (1 + (countCommits s pre : Nat)) ≤ llongMax →
          resolveTx (build pre) s = s * (1 + (countCommits s pre : Nat)))
    ∧ ((∀ r ∈ pre, r.sesId ≠ s) → resolveTx (build pre) s = s)
    ∧ resolveTx (build pre) 0 = 0 := by
  simp only [llongMin, llongMax] at hlo hhi ⊢
  have hwrap : resolveTx (build pre) s = wrapLongLong (s * (1 + (countCommits s pre : Nat))) := by
    rw [resolveTx_build]
    by_cases h0 : countCommits s pre = 0
    · rw [if_pos h0, h0]
      simp only [Nat.cast_zero, add_zero, mul_one]
      exact (wrapLongLong_of_range s hlo hhi).symm
    · rw [if_neg h0]
  refine ⟨hwrap, ?_, ?_, ?_⟩
  · intro h1 h2
    rw [hwrap]
    exact wrapLongLong_of_range _ h1 h2
  · intro h
    rw [resolveTx_build, countCommits_eq_zero_of_no_record pre s h]
    simp
  · rw [resolveTx_build]
    by_cases h0 : countCommits 0 pre = 0
    · rw [if_pos h0]
    · rw [if_neg h0, zero_mul]
      rfl

/-- C14 amended, at a concrete input: session 3 after two of its COMMIT records
resolves to 9; and the first record of session 4 is a READ that follows records of
session 2 only. -/
theorem C14_resolution_witness :
    (llongMin ≤ (3 : Int) ∧ (3 : Int) ≤ llongMax)
    ∧ resolveTx (build [⟨3, "BEGIN", -1⟩, ⟨3, "COMMIT", -1⟩, ⟨3, "COMMIT", -1⟩]) 3
        = wrapLongLong
            (3 * (1 + (countCommits 3
              [⟨3, "BEGIN", -1⟩, ⟨3, "COMMIT", -1⟩, ⟨3, "COMMIT", -1⟩] : Nat)))
    ∧ resolveTx (build [⟨3, "BEGIN", -1⟩, ⟨3, "COMMIT", -1⟩, ⟨3, "COMMIT", -1⟩]) 3 = 9
    ∧ (∀ r ∈ [(⟨2, "BEGIN", -1⟩ : Operation), ⟨2, "COMMIT", -1⟩], r.sesId ≠ 4)
    ∧ resolveTx (build [⟨2, "BEGIN", -1⟩, ⟨2, "COMMIT", -1⟩]) 4 = 4 :=
  ⟨⟨by decide, by decide⟩,
   (C14_resolution [⟨3, "BEGIN", -1⟩, ⟨3, "COMMIT", -1⟩, ⟨3, "COMMIT", -1⟩] 3 (by decide)
     (by decide)).1,
   by decide,
   by decide,
   (C14_resolution [⟨2, "BEGIN", -1⟩, ⟨2, "COMMIT", -1⟩] 4 (by decide) (by decide)).2.2.1
     (by decide)⟩

/-- C16: let `r` be the last record of a known type that resolves to its
transaction id `T` (no BEGIN, READ, WRITE or COMMIT record after it resolves to `T`).
The clock when `r` is processed is the number of BEGIN and COMMIT records before
it.  When `r` is a READ, WRITE or COMMIT, the final commit time of `T` is that clock
value; a READ or WRITE leaves the clock as it is and a COMMIT advances it by one.
When `r` is a BEGIN, the final commit time of `T` is `-1`. -/
theorem C16_commit_time (pre post : List Operation) (r : Operation)
    (hlast : resolvedTo (resolveTx (build pre) r.sesId) isKnown (step (build pre) r) post
      = []) :
    (build pre).currTime = (pre.countP isBeginOrCommit : Nat)
    ∧ (r.opType = "READ" ∨ r.opType = "WRITE" ∨ r.opType = "COMMIT" →
        (mapGet (build (pre ++ r :: post)).transactionTime
            (resolveTx (build pre) r.sesId) (0, 0)).2 = (pre.countP isBeginOrCommit : Nat))
    ∧ (r.opType = "READ" ∨ r.opType = "WRITE" →
        (step (build pre) r).currTime = (pre.countP isBeginOrCommit : Nat))
    ∧ (r.opType = "COMMIT" →
        (step (build pre) r).currTime = (pre.countP isBeginOrCommit : Nat) + 1)
    ∧ (r.opType = "BEGIN" →
        (mapGet (build (pre ++ r :: post)).transactionTime
            (resolveTx (build pre) r.sesId) (0, 0)).2 = -1) := by
  have hfinal : mapGet (build (pre ++ r :: post)).transactionTime
        (resolveTx (build pre) r.sesId) (0, 0)
      = mapGet (step (build pre) r).transactionTime (resolveTx (build pre) r.sesId) (0, 0) := by
    have : build (pre ++ r :: post) = run (step (build pre) r) post := by
      unfold build
      rw [run_append, run_cons]
    rw [this, run_transactionTime_of_untouched _ post _ hlast]
  refine ⟨build_currTime pre, ?_, ?_, ?_, ?_⟩
  · intro hr
    have h1 : ¬ r.opType = "BEGIN" := by
      rcases hr with h | h | h <;> rw [h] <;> decide
    have h2 : r.opType = "COMMIT" ∨ r.opType = "WRITE" ∨ r.opType = "READ" := by tauto
    rw [hfinal, step_transactionTime, if_pos rfl, if_neg h1, if_pos h2]
    exact build_currTime pre
  · intro hr
    have hb : isBeginOrCommit r = false := by
      rcases hr with h | h <;> simp [isBeginOrCommit, h]
    rw [step_currTime, hb]
    exact build_currTime pre
  · intro hr
    have hb : isBeginOrCommit r = true := by simp [isBeginOrCommit, hr]
    rw [step_currTime, hb, if_pos rfl, build_currTime pre]
  · intro hr
    rw [hfinal, step_transactionTime, if_pos rfl, if_pos hr]

/-- C16, at a concrete input: the COMMIT of session 1 is the last record of
transaction 1 and is followed by a BEGIN of session 2; the commit time is 1. -/
theorem C16_commit_time_witness :
    resolvedTo (resolveTx (build [⟨1, "BEGIN", -1⟩, ⟨1, "READ", 7⟩]) 1) isKnown
        (step (build [⟨1, "BEGIN", -1⟩, ⟨1, "READ", 7⟩]) ⟨1, "COMMIT", -1⟩)
        [⟨2, "BEGIN", -1⟩] = []
    ∧ (mapGet (build ([⟨1, "BEGIN", -1⟩, ⟨1, "READ", 7⟩] ++ ⟨1, "COMMIT", -1⟩
          :: [⟨2, "BEGIN", -1⟩])).transactionTime
        (resolveTx (build [⟨1, "BEGIN", -1⟩, ⟨1, "READ", 7⟩]) 1) (0, 0)).2
      = (([⟨1, "BEGIN", -1⟩, ⟨1, "READ", 7⟩] : List Operation).countP isBeginOrCommit : Nat) :=
  ⟨by decide,
   (C16_commit_time [⟨1, "BEGIN", -1⟩, ⟨1, "READ", 7⟩] [⟨2, "BEGIN", -1⟩] ⟨1, "COMMIT", -1⟩
      (by decide)).2.1 (Or.inr (Or.inr rfl))⟩

/-- C19: after any operation list, a transaction id `T` to which a BEGIN record
resolved has commit time `-1` or a begin time strictly smaller than its commit time;
so when its commit time is not `-1`, the time of its invoke event is strictly smaller
than the time of its ok event. -/
theorem C19_begin_before_commit (pre post : List Operation) (r : Operation)
    (hr : r.opType = "BEGIN") (i j : Int) (ops : List ElleOp) :
    ((mapGet (build (pre ++ r :: post)).transactionTime
          (resolveTx (build pre) r.sesId) (0, 0)).2 = -1
      ∨ (mapGet (build (pre ++ r :: post)).transactionTime
            (resolveTx (build pre) r.sesId) (0, 0)).1
          < (mapGet (build (pre ++ r :: post)).transactionTime
              (resolveTx (build pre) r.sesId) (0, 0)).2)
    ∧ ((okEvent (build (pre ++ r :: post)).transactionTime j
            (resolveTx (build pre) r.sesId, ops)).time ≠ -1 →
        (invokeEvent (build (pre ++ r :: post)).transactionTime i
            (resolveTx (build pre) r.sesId, ops)).time
          < (okEvent (build (pre ++ r :: post)).transactionTime j
              (resolveTx (build pre) r.sesId, ops)).time) := by
  have hinv : beginBeforeCommit (build (pre ++ r :: post)) (resolveTx (build pre) r.sesId) := by
    unfold build
    rw [run_append, run_cons]
    exact beginBeforeCommit_run _ post _ (beginBeforeCommit_step_begin _ r hr)
  refine ⟨hinv.2, ?_⟩
  intro hne
  simp only [okEvent, invokeEvent] at hne ⊢
  rcases hinv.2 with h | h
  · exact absurd h hne
  · exact h

/-- C19, at a concrete input: session 1 begins, reads and commits after another
session began. -/
theorem C19_begin_before_commit_witness :
    (mapGet (build ([⟨2, "BEGIN", -1⟩] ++ ⟨1, "BEGIN", -1⟩
          :: [⟨1, "READ", 7⟩, ⟨1, "COMMIT", -1⟩])).transactionTime
        (resolveTx (build [⟨2, "BEGIN", -1⟩]) 1) (0, 0)).2 = -1
    ∨ (mapGet (build ([⟨2, "BEGIN", -1⟩] ++ ⟨1, "BEGIN", -1⟩
          :: [⟨1, "READ", 7⟩, ⟨1, "COMMIT", -1⟩])).transactionTime
        (resolveTx (build [⟨2, "BEGIN", -1⟩]) 1) (0, 0)).1
      < (mapGet (build ([⟨2, "BEGIN", -1⟩] ++ ⟨1, "BEGIN", -1⟩
          :: [⟨1, "READ", 7⟩, ⟨1, "COMMIT", -1⟩])).transactionTime
        (resolveTx (build [⟨2, "BEGIN", -1⟩]) 1) (0, 0)).2 :=
  (C19_begin_before_commit [⟨2, "BEGIN", -1⟩] [⟨1, "READ", 7⟩, ⟨1, "COMMIT", -1⟩]
    ⟨1, "BEGIN", -1⟩ rfl 0 1 []).1

/-- C20: a transaction id `T` to which no READ and no WRITE record resolves is not
a key of `transactions`, and no event generated or written by `writeToFile` has
`:process T`; a session doing only BEGIN and COMMIT still advances the clock by two
and leaves the output empty. -/
theorem C20_no_ops_no_events (operations : List Operation) (T : Int)
    (hT : recordsOf T State.init operations = []) :
    T ∉ (build operations).transactions.map Prod.fst
    ∧ mapFind (build operations).transactions T = none
    ∧ (∀ e ∈ genEvents (build operations).transactionTime (build operations).transactions 0,
        e.process ≠ T)
    ∧ (∀ e ∈ writtenEvents (build operations).transactions (build operations).transactionTime,
        e.process ≠ T)
    ∧ (∀ s o1 o2 : Int,
        (build [⟨s, "BEGIN", o1⟩, ⟨s, "COMMIT", o2⟩]).currTime = 2
        ∧ (build [⟨s, "BEGIN", o1⟩, ⟨s, "COMMIT", o2⟩]).transactions = []
        ∧ mainOutput [⟨s, "BEGIN", o1⟩, ⟨s, "COMMIT", o2⟩] = "") := by
  have hkey : T ∉ (build operations).transactions.map Prod.fst := by
    rw [build_keys]
    exact fun h => h hT
  have hgen : ∀ e ∈ genEvents (build operations).transactionTime
      (build operations).transactions 0, e.process ≠ T := by
    intro e he hp
    exact hkey (hp ▸ genEvents_process _ _ 0 e he)
  refine ⟨hkey, mapFind_eq_none_of_not_mem _ _ hkey, hgen, ?_, ?_⟩
  · intro e he
    exact hgen e (mem_genEvents_of_written _ _ e he)
  · intro s o1 o2
    have htx : (build [⟨s, "BEGIN", o1⟩, ⟨s, "COMMIT", o2⟩]).transactions = [] := by
      unfold build
      rw [run_cons, run_cons, run_nil,
        step_transactions_of_not_readOrWrite _ _ (by simp [isReadOrWrite]),
        step_transactions_of_not_readOrWrite _ _ (by simp [isReadOrWrite])]
      rfl
    refine ⟨?_, htx, ?_⟩
    · unfold build
      rw [run_currTime]
      rfl
    · unfold mainOutput
      rw [htx]
      rfl

/-- C20, at a concrete input: session 1 only begins and commits, session 2 reads. -/
theorem C20_no_ops_no_events_witness :
    recordsOf 1 State.init
        [⟨1, "BEGIN", -1⟩, ⟨2, "BEGIN", -1⟩, ⟨2, "READ", 7⟩, ⟨2, "COMMIT", -1⟩,
          ⟨1, "COMMIT", -1⟩] = []
    ∧ ∀ e ∈ writtenEvents
        (build [⟨1, "BEGIN", -1⟩, ⟨2, "BEGIN", -1⟩, ⟨2, "READ", 7⟩, ⟨2, "COMMIT", -1⟩,
          ⟨1, "COMMIT", -1⟩]).transactions
        (build [⟨1, "BEGIN", -1⟩, ⟨2, "BEGIN", -1⟩, ⟨2, "READ", 7⟩, ⟨2, "COMMIT", -1⟩,
          ⟨1, "COMMIT", -1⟩]).transactionTime, e.process ≠ 1 :=
  ⟨by decide,
   (C20_no_ops_no_events
      [⟨1, "BEGIN", -1⟩, ⟨2, "BEGIN", -1⟩, ⟨2, "READ", 7⟩, ⟨2, "COMMIT", -1⟩,
        ⟨1, "COMMIT", -1⟩] 1 (by decide)).2.2.2.1⟩

end LogVerifier
